import Mathlib

/-!
Verification development for the ViewJS view-hierarchy library.

The repository contains several snapshots of the same library.  Two of them
are modelled here as shallow embeddings:

* namespace `V021` — the 0.2.1 rewrite (src/unnamed/part_001, part_002):
  views carry a `name`, properties are guarded by `isLoaded` checks, `load`
  validates its preconditions before any mutation, and `unload` restores a
  backed-up clone of the original container element.

* namespace `VJS` — the 0.1.0/0.2.0 view.js variant (src/view.js):
  views are keyed by a `container` name, the hierarchy is managed through
  `addChildView` / `removeChildView` / `removeAllChildViews`, outlets and
  target-action tables exist, and the declarative scanner creates automatic
  child views from markup annotations.

The visual surface (DOM) is modelled as a flat map from mount-point names to
elements; parent scoping and DOM-nesting containment checks of the original
code operate on a nested document and are not representable in this flat
model, so they are abstracted away (they never fire in the states considered
by the theorems below).  Machine-level jQuery behaviour is modelled by value
semantics: a selection is a list of elements, `clone` is the identity on
values.
-/

/-- A rendered element: its attribute map (also serving as the jQuery
`data()` map, with camel-cased keys) and its child elements. -/
inductive Elem where
  | mk (attrs : List (String × String)) (kids : List Elem)

def Elem.attrs : Elem → List (String × String)
  | .mk a _ => a

def Elem.kids : Elem → List Elem
  | .mk _ k => k

mutual

def decEqElem : (a b : Elem) → Decidable (a = b)
  | .mk a1 k1, .mk a2 k2 =>
    match decEq a1 a2 with
    | isFalse h => isFalse (fun hc => by cases hc; exact h rfl)
    | isTrue h1 =>
      match decEqElemList k1 k2 with
      | isFalse h => isFalse (fun hc => by cases hc; exact h rfl)
      | isTrue h2 => isTrue (by rw [h1, h2])

def decEqElemList : (a b : List Elem) → Decidable (a = b)
  | [], [] => isTrue rfl
  | [], _ :: _ => isFalse (by simp)
  | _ :: _, [] => isFalse (by simp)
  | x :: xs, y :: ys =>
    match decEqElem x y with
    | isFalse h => isFalse (fun hc => by cases hc; exact h rfl)
    | isTrue h1 =>
      match decEqElemList xs ys with
      | isFalse h => isFalse (fun hc => by cases hc; exact h rfl)
      | isTrue h2 => isTrue (by rw [h1, h2])

end

instance : DecidableEq Elem := decEqElem

/-- Association-list lookup (string keys). -/
def getA {β : Type} : List (String × β) → String → Option β
  | [], _ => none
  | (k', v) :: t, k => if k' = k then some v else getA t k

/-- Association-list update-or-append (string keys). -/
def setA {β : Type} : List (String × β) → String → β → List (String × β)
  | [], k, v => [(k, v)]
  | (k', v') :: t, k, v => if k' = k then (k, v) :: t else (k', v') :: setA t k v

def Elem.attr (e : Elem) (k : String) : Option String :=
  getA e.attrs k

def Elem.setAttr (e : Elem) (k : String) (v : String) : Elem :=
  .mk (setA e.attrs k v) e.kids

/-- The `className` DOM property: the class attribute, or "" when absent. -/
def Elem.className (e : Elem) : String :=
  (e.attr "class").getD ""

/-- jQuery `addClass`: appends a (non-empty) class string to the class
attribute.  De-duplication of individual class names is irrelevant to every
property proved here and is not modelled. -/
def Elem.addClass (e : Elem) (c : String) : Elem :=
  if c = "" then e
  else
    match e.attr "class" with
    | none => e.setAttr "class" c
    | some "" => e.setAttr "class" c
    | some cur => e.setAttr "class" (cur ++ " " ++ c)

/-- Observable lifecycle events (instrumentation used to state temporal
properties about notification ordering; hooks and subscriber callbacks of
the source fire exactly at these points). -/
inductive Ev where
  | didLoad (i : Nat)
  | willUnload (i : Nat)
  | loadCalled (i : Nat)
deriving DecidableEq

/-- Nodes reachable from `v` by following a children map, within `f` levels
counting `v` itself as one level (`reachD ch 0 v = []`). -/
def reachD (ch : Nat → List Nat) : Nat → Nat → List Nat
  | 0, _ => []
  | f + 1, v => v :: (ch v).flatMap (reachD ch f)

/-- Nodes a fuel-`f` recursive hierarchy operation may touch: the node, its
direct children (touched even when the recursive budget for them is spent),
and recursively the nodes touched below each child. -/
def touchD (ch : Nat → List Nat) : Nat → Nat → List Nat
  | 0, _ => []
  | f + 1, v => v :: (ch v).flatMap (fun c => c :: touchD ch f c)

namespace V021

/-- A 0.2.1 view object (src/unnamed/part_001).  Selections (`_viewElement`,
`_containerElement`) are lists of elements; `none` models the JS
`undefined`. -/
structure View where
  _name : Option String := none
  _bundle : Option String := none
  _isRootView : Bool := false
  _parentView : Option Nat := none
  _childViews : Option (List Nat) := none
  _viewElement : Option (List Elem) := none
  _containerElement : Option (List Elem) := none
deriving DecidableEq

/-- The world: the view store (a total map from node ids; ids at or above
`next` are unallocated and hold the default object), the flat visual surface
keyed by `data-view-name`, the resource-loader environment mapping bundle
ids to markup roots, and the event trace. -/
structure State where
  store : Nat → View := fun _ => {}
  next : Nat := 0
  surface : List (String × Elem) := []
  bundles : List (String × Elem) := []
  events : List Ev := []

def getV (s : State) (i : Nat) : View :=
  s.store i

def setV (s : State) (i : Nat) (v : View) : State :=
  { s with store := fun j => if j = i then v else s.store j }

def modV (s : State) (i : Nat) (g : View → View) : State :=
  setV s i (g (getV s i))

/-- Errors reported by thrown strings in the source. -/
inductive Err where
  | cannotChangeWhileLoaded
  | parentNotLoaded
  | nameMissing
  | bundleMissing
  | detachedFromHierarchy
  | containerNotFound
  | containerOccupied
  | resourceUnavailable
  | outOfFuel
deriving DecidableEq

/-- The `isLoaded` getter: both element references exist and are non-empty
selections. -/
def isLoadedV (s : State) (i : Nat) : Bool :=
  match (getV s i)._viewElement, (getV s i)._containerElement with
  | some ve, some ce => !ve.isEmpty && !ce.isEmpty
  | _, _ => false

/-- JS truthiness of the `_name` field (`!self._name`). -/
def nameFalsy (v : View) : Bool :=
  match v._name with
  | none => true
  | some s => s = ""

/-- JS truthiness of the `_bundle` field (`!self._bundle`). -/
def bundleFalsy (v : View) : Bool :=
  match v._bundle with
  | none => true
  | some s => s = ""

/-- The `childViews` getter: `this._childViews || []`. -/
def chV (s : State) (i : Nat) : List Nat :=
  ((getV s i)._childViews).getD []

def chFun (s : State) : Nat → List Nat :=
  fun i => chV s i

/-- The `name` property setter. -/
def setName (s : State) (i : Nat) (val : Option String) : State × Option Err :=
  if isLoadedV s i then (s, some .cannotChangeWhileLoaded)
  else (modV s i (fun v => { v with _name := val }), none)

/-- The `bundle` property setter. -/
def setBundle (s : State) (i : Nat) (val : Option String) : State × Option Err :=
  if isLoadedV s i then (s, some .cannotChangeWhileLoaded)
  else (modV s i (fun v => { v with _bundle := val }), none)

/-- The `isRootView` property setter (coerces an undefined value to
`false`). -/
def setIsRootView (s : State) (i : Nat) (val : Option Bool) : State × Option Err :=
  if isLoadedV s i then (s, some .cannotChangeWhileLoaded)
  else (modV s i (fun v => { v with _isRootView := val.getD false }), none)

/-- The `parentView` property setter: a silent no-op on root views; for
non-root views assigns the reference and pushes the view onto the result of
the parent's `childViews` getter (a push onto the getter's fresh default
array is lost, faithfully to the source). -/
def setParentView (s : State) (i : Nat) (val : Option Nat) : State × Option Err :=
  if isLoadedV s i then (s, some .cannotChangeWhileLoaded)
  else if (getV s i)._isRootView then (s, none)
  else
    let s₁ := modV s i (fun v => { v with _parentView := val })
    match val with
    | none => (s₁, none)
    | some p =>
      match (getV s₁ p)._childViews with
      | some l => (modV s₁ p (fun v => { v with _childViews := some (l ++ [i]) }), none)
      | none => (s₁, none)

/-- The `childViews` property setter: detaches the current children, empties
the collection, then attaches each supplied child. -/
def setChildViews (s : State) (i : Nat) (val : Option (List Nat)) : State × Option Err :=
  if isLoadedV s i then (s, some .cannotChangeWhileLoaded)
  else
    let cur := ((getV s i)._childViews).getD []
    let newL := val.getD []
    let s₁ := cur.foldl (fun st c => modV st c (fun v => { v with _parentView := none })) s
    let s₂ := modV s₁ i (fun v => { v with _childViews := some [] })
    let s₃ := newL.foldl (fun st c =>
      let st₁ := modV st c (fun v => { v with _parentView := some i })
      modV st₁ i (fun v => { v with _childViews := some (v._childViews.getD [] ++ [c]) })) s₂
    (s₃, none)

/-- Construction parameters. -/
structure Config where
  name : Option String := none
  bundle : Option String := none
  isRootView : Option Bool := none
  parentView : Option Nat := none
  childViews : Option (List Nat) := none
deriving DecidableEq

/-- The view constructor: allocates a fresh object and assigns the
configured properties through their setters, in source order.  A fresh view
is never loaded, so none of the setters reports an error. -/
def construct (s : State) (cfg : Config) : State × Nat :=
  let i := s.next
  let s₀ : State := setV { s with next := s.next + 1 } i {}
  let s₁ := (setName s₀ i cfg.name).1
  let s₂ := (setBundle s₁ i cfg.bundle).1
  let s₃ := (setIsRootView s₂ i cfg.isRootView).1
  let s₄ := (setParentView s₃ i cfg.parentView).1
  let s₅ := (setChildViews s₄ i cfg.childViews).1
  (s₅, i)

/-- The restore step of `unload`: `self._viewElement.replaceWith(
self._containerElement)` — put the backed-up original container element
back at the mount location. -/
def restoreBackup (s : State) (i : Nat) : State :=
  match (getV s i)._name, (getV s i)._containerElement with
  | some n, some (b :: _) => { s with surface := setA s.surface n b }
  | _, _ => s

/-- `unload`: when loaded, recursively unloads the children, fires the
will-unload hook and notification, restores the backed-up original container
element at the mount location (`replaceWith`), and releases the element
references; otherwise does nothing.  The fuel only bounds the recursion
depth. -/
def unloadV : Nat → State → Nat → State
  | 0, s, _ => s
  | f + 1, s, i =>
    if isLoadedV s i then
      let s₁ := (chV s i).foldl (fun st c => unloadV f st c) s
      let s₂ := { s₁ with events := s₁.events ++ [Ev.willUnload i] }
      let s₃ := restoreBackup s₂ i
      modV s₃ i (fun w => { w with _containerElement := none, _viewElement := none })
    else s

/-- The synchronous body of the resource-loader callback of `load`: back up
a clone of the resolved container element `e`, decorate the bundle markup
with the container's class, `data-view-name` and the controller stamp, swap
it in at the mount location `n`, and fire the did-load notification. -/
def loadApply (s : State) (i : Nat) (n : String) (e html : Elem) : State :=
  let backup := [e]
  let m₁ := html.addClass e.className
  let m₂ :=
    match e.attr "data-view-name" with
    | some dn => m₁.setAttr "data-view-name" dn
    | none => m₁
  let m₃ := m₂.setAttr "data-view-controller" "View"
  let s₃ := { s with surface := setA s.surface n m₃ }
  let s₄ := modV s₃ i
    (fun w => { w with _viewElement := some [m₃], _containerElement := some backup })
  { s₄ with events := s₄.events ++ [Ev.didLoad i] }

/-- `load`: validates its preconditions (parent loaded, name, bundle,
hierarchy placement) before any state change, unloads for a reload, resolves
the container element on the flat surface by `data-view-name`, rejects a
missing or occupied container, then synchronously performs the resource
callback: backs up a clone of the container, swaps in the bundle markup
(copying class and name attributes and stamping the controller), fires the
did-load notification and recursively loads the children.  DOM-nesting
containment checks of the source are not representable on the flat surface
and are omitted. -/
def loadV : Nat → State → Nat → State × Option Err
  | 0, s, _ => (s, some .outOfFuel)
  | f + 1, s, i =>
    let v := getV s i
    if (match v._parentView with | some p => !isLoadedV s p | none => false) then
      (s, some .parentNotLoaded)
    else if nameFalsy v then (s, some .nameMissing)
    else if bundleFalsy v then (s, some .bundleMissing)
    else if !v._isRootView && v._parentView = none then (s, some .detachedFromHierarchy)
    else
      let s₁ := unloadV (f + 1) s i
      let n := ((getV s₁ i)._name).getD ""
      let sel : List Elem :=
        match getA s₁.surface n with
        | some e => [e]
        | none => []
      let s₂ := modV s₁ i (fun w => { w with _containerElement := some sel })
      match sel with
      | [] => (s₂, some .containerNotFound)
      | e :: _ =>
        if !e.kids.isEmpty then (s₂, some .containerOccupied)
        else
          match getA s₂.bundles (((getV s₂ i)._bundle).getD "") with
          | none => (s₂, some .resourceUnavailable)
          | some html =>
            let s₅ := loadApply s₂ i n e html
            let s₆ := (chV s₅ i).foldl (fun st c => (loadV f st c).1) s₅
            (s₆, none)

/-- Content currently present at the mount location named `n`. -/
def surfaceAt (s : State) (n : String) : Option Elem :=
  getA s.surface n

end V021

namespace VJS

/-- A target-action event binding: a receiver object and an action (a
method name to invoke dynamically; direct callables carry no data relevant
to the properties below). -/
structure TargetAction where
  target : Option Nat := none
  action : Option String := none
deriving DecidableEq

/-- A 0.1.0 view object (src/view.js).  `_containerElement` is a selection
of container keys into the flat surface (`none` = JS `undefined`,
`some []` = an empty jQuery selection). -/
structure View where
  _isRootView : Bool := false
  _bundle : Option String := none
  _container : Option String := none
  _parentView : Option Nat := none
  _childViews : List Nat := []
  _containerElement : Option (List String) := none
  _viewElement : Option Elem := none
  _outlets : List (String × Option Nat) := []
  _markupProperties : List (String × String) := []
  _targetActions : List (String × TargetAction) := []
  _viewDidLoadCalled : Bool := false
  _wasAutomaticallyCreated : Bool := false
deriving DecidableEq

/-- The world for the view.js model: the total view store with its
allocation bound, the flat surface keyed by `data-view-container`, the
bundle environment and the event trace. -/
structure State where
  store : Nat → View := fun _ => {}
  next : Nat := 0
  surface : List (String × Elem) := []
  bundles : List (String × Elem) := []
  events : List Ev := []

def getV (s : State) (i : Nat) : View :=
  s.store i

def setV (s : State) (i : Nat) (v : View) : State :=
  { s with store := fun j => if j = i then v else s.store j }

def modV (s : State) (i : Nat) (g : View → View) : State :=
  setV s i (g (getV s i))

inductive Err where
  | detachedFromHierarchy
  | containerNotFound
  | containerOccupied
  | bundleMissing
  | resourceUnavailable
  | outOfFuel
deriving DecidableEq

/-- `isLoaded`: both element references are defined (an empty selection
still counts as defined, faithfully to the `!== undefined` checks). -/
def isLoadedVJS (s : State) (i : Nat) : Bool :=
  ((getV s i)._containerElement).isSome && ((getV s i)._viewElement).isSome

def chJ (s : State) (i : Nat) : List Nat :=
  (getV s i)._childViews

def chJFun (s : State) : Nat → List Nat :=
  fun i => chJ s i

/-- `_elementForContainer`: resolves the configured container name on the
surface; an unset name yields an empty selection ("allow evaluation of
length property").  Scoping to a loaded parent's rendered subtree is
abstracted away by the flat surface. -/
def elementForContainer (s : State) (i : Nat) : List String :=
  match (getV s i)._container with
  | none => []
  | some c =>
    match getA s.surface c with
    | some _ => [c]
    | none => []

/-- Children of the surface element stored under container key `c`. -/
def surfKids (s : State) (c : String) : List Elem :=
  match getA s.surface c with
  | some e => e.kids
  | none => []

/-- Replace the children of the surface element under container key `c`. -/
def setSurfKids (s : State) (c : String) (ks : List Elem) : State :=
  match getA s.surface c with
  | some e => { s with surface := setA s.surface c (.mk e.attrs ks) }
  | none => s

/-- Result of `addChildView`: the possibly-updated state, the returned
conflicting child view (`none` means success), and an error propagated from
an immediate child `load`. -/
structure AddRes where
  st : State
  conflict : Option Nat
  err : Option Err

/-- The first existing child of `i` occupying the same container as
`newId` (`undefined` containers never conflict). -/
def findConflict (s : State) (i newId : Nat) : Option Nat :=
  match (getV s newId)._container with
  | none => none
  | some cc => (getV s i)._childViews.find? (fun c => (getV s c)._container = some cc)

/-- `addChildView`, parameterised by the `load` implementation invoked on a
new child of an already-loaded parent (`load` and `addChildView` are
mutually recursive in the source; the recursion is closed by fuel in
`load010`). -/
def addChildViewAux (loadFn : State → Nat → State × Option Err)
    (s : State) (i newId : Nat) : AddRes :=
  match findConflict s i newId with
  | some c =>
    if c = newId then ⟨s, some newId, none⟩
    else ⟨s, some c, none⟩
  | none =>
    let s₁ := modV s newId (fun v => { v with _parentView := some i })
    let s₂ := modV s₁ i (fun v => { v with _childViews := v._childViews ++ [newId] })
    if (getV s₂ i)._viewDidLoadCalled then
      let r := loadFn s₂ newId
      ⟨r.1, none, r.2⟩
    else ⟨s₂, none, none⟩

/-- `registerTargetActionEvent`. -/
def registerTargetActionEvent (s : State) (i : Nat) (ev : String)
    (tgt : Option Nat) (act : Option String) : State :=
  modV s i (fun v => { v with _targetActions := setA v._targetActions ev ⟨tgt, act⟩ })

/-- `removeAllChildViews`: recursively detaches every child (clearing its
parent reference), then empties the own children collection and outlet
table. -/
def removeAllChildViews : Nat → State → Nat → State
  | 0, s, _ => s
  | f + 1, s, i =>
    let s₁ := (getV s i)._childViews.foldl (fun st c =>
      let st₁ := removeAllChildViews f st c
      modV st₁ c (fun v => { v with _parentView := none })) s
    modV s₁ i (fun v => { v with _childViews := [], _outlets := [] })

/-- Empty the surface element under container key `c` (jQuery `empty()`:
delete the contained view markup while leaving the container intact). -/
def emptyContainer (s : State) (c : String) : State :=
  match getA s.surface c with
  | some e => { s with surface := setA s.surface c (.mk e.attrs []) }
  | none => s

/-- `unload`: when loaded, recursively unloads the children and fires the
will-unload hook and notification; then (loaded or not) empties the
container if a container reference exists and releases all per-load state.
The body contains no throw site: a missing container reference or backup is
nothing to restore, not an error. -/
def unload010 : Nat → State → Nat → State
  | 0, s, _ => s
  | f + 1, s, i =>
    let s₁ :=
      if isLoadedVJS s i then
        let sA := (getV s i)._childViews.foldl (fun st c => unload010 f st c) s
        { sA with events := sA.events ++ [Ev.willUnload i] }
      else s
    let s₂ :=
      match (getV s₁ i)._containerElement with
      | none => s₁
      | some keys => keys.foldl (fun st c => emptyContainer st c) s₁
    modV s₂ i (fun v =>
      { v with _containerElement := none, _viewElement := none,
               _markupProperties := [], _viewDidLoadCalled := false })

/-- `removeChildView`: unloads the child, recursively detaches its own
children, severs the parent/child edge, and clears outlet entries of the
parent that reference the child (their values become `undefined`; keys are
kept).  Target actions are not removed (an explicit TODO in the source).
Signals only a diagnostic when the view is not actually a child. -/
def removeChildView (f : Nat) (s : State) (i exId : Nat) : State :=
  match (getV s i)._childViews.findIdx? (fun c => c = exId) with
  | none => s
  | some idx =>
    let s₁ := unload010 f s exId
    let s₂ := removeAllChildViews f s₁ exId
    let s₃ := modV s₂ exId (fun v => { v with _parentView := none })
    let s₄ := modV s₃ i (fun v => { v with _childViews := v._childViews.eraseIdx idx })
    modV s₄ i (fun v =>
      { v with _outlets := v._outlets.map (fun kv =>
          if kv.2 = some exId then (kv.1, none) else kv) })

/-- jQuery `.data(k)` of an element: the attribute map serves as the data
map (camel-cased keys). -/
def dataGet (e : Elem) (k : String) : Option String :=
  getA e.attrs k

/-- Lower-case the first character (`charAt(0).toLowerCase() + slice(1)`). -/
def lowerFirst (x : String) : String :=
  match x.toList with
  | [] => ""
  | c :: t => String.mk (c.toLower :: t)

mutual

/-- All descendant elements of an element, in document (pre-)order (the
result of jQuery `find`). -/
def Elem.descendants : Elem → List Elem
  | .mk _ ks => descList ks

/-- Descendant collection for a list of sibling elements. -/
def descList : List Elem → List Elem
  | [] => []
  | e :: t => e :: Elem.descendants e ++ descList t

end

/-- `_fetchAttributedPropertiesFromViewContainer`: reads `property*` data
attributes of the container element into `_markupProperties`. -/
def fetchProps (s : State) (i : Nat) : State :=
  if isLoadedVJS s i then
    match (getV s i)._containerElement with
    | some (c :: _) =>
      match getA s.surface c with
      | some e =>
        e.attrs.foldl (fun st kv =>
          if kv.1.startsWith "property" then
            modV st i (fun v =>
              { v with
                _markupProperties := setA v._markupProperties (lowerFirst (kv.1.drop 8)) kv.2 })
          else st) s
      | none => s
    | _ => s
  else s

/-- `_fetchAttributedTargetActionEventsFromViewContainer`: reads `event*`
data attributes of the container element and registers target-action events
whose target is the parent view. -/
def fetchTargetActions (s : State) (i : Nat) : State :=
  if isLoadedVJS s i then
    match (getV s i)._containerElement with
    | some (c :: _) =>
      match getA s.surface c with
      | some e =>
        e.attrs.foldl (fun st kv =>
          if kv.1.startsWith "event" then
            registerTargetActionEvent st i (lowerFirst (kv.1.drop 5))
              (getV st i)._parentView (some kv.2)
          else st) s
      | none => s
    | _ => s
  else s

/-- Insert an element into its bundle group (insertion-ordered grouping of
`data-load-view` containers by declared bundle). -/
def groupIns (m : List (String × List Elem)) (k : String) (e : Elem) :
    List (String × List Elem) :=
  match getA m k with
  | some l => setA m k (l ++ [e])
  | none => m ++ [(k, [e])]

/-- The per-element body of the declarative binding scanner (the closure
inside `load`, src/view.js lines 805-836): construct an automatic child view
for the annotated container element, attach it, and resolve a mount-slot
conflict — an explicit pre-existing view wins over the automatic one, a
previously auto-created view is reused in place of the freshly constructed
one; on success register a declared outlet.  Returns the updated state and
the final value of the `newChildView` variable. -/
def processAutoAux (loadFn : State → Nat → State × Option Err)
    (s : State) (i : Nat) (ce : Elem) : State × Nat :=
  let newId := s.next
  let nv : View := { _container := dataGet ce "viewContainer" }
  let s₀ : State := setV { s with next := s.next + 1 } newId nv
  let s₁ := modV s₀ newId (fun v => { v with _bundle := dataGet ce "loadBundle" })
  let s₂ := modV s₁ newId (fun v => { v with _wasAutomaticallyCreated := true })
  let r := addChildViewAux loadFn s₂ i newId
  match r.conflict with
  | some c =>
    if (getV r.st c)._wasAutomaticallyCreated = false then
      (r.st, newId)
    else
      (r.st, c)
  | none =>
    match dataGet ce "outlet" with
    | some o =>
      (modV r.st i (fun v => { v with _outlets := setA v._outlets o (some newId) }), newId)
    | none => (r.st, newId)

/-- `load` (src/view.js 0.1.0): hierarchy-placement check, unload for
reload, container resolution and occupancy check, bundle check, then the
synchronous resource callback: swap the markup into the container, parse
markup properties and target-action annotations, run the declarative
scanner over the mounted markup (grouped by declared bundle), fire did-load
and recursively load the children.  An `Ev.loadCalled` event records each
invocation (instrumentation).  DOM-nesting containment checks are not
representable on the flat surface and are omitted. -/
def load010 : Nat → State → Nat → State × Option Err
  | 0, s, _ => (s, some .outOfFuel)
  | f + 1, s, i =>
    let s := { s with events := s.events ++ [Ev.loadCalled i] }
    let v := getV s i
    if v._parentView = none && v._isRootView = false then
      (s, some .detachedFromHierarchy)
    else
      let s₁ := unload010 (f + 1) s i
      let sel := elementForContainer s₁ i
      let s₂ := modV s₁ i (fun w => { w with _containerElement := some sel })
      match sel with
      | [] => (s₂, some .containerNotFound)
      | c :: _ =>
        if !(surfKids s₂ c).isEmpty then (s₂, some .containerOccupied)
        else if (getV s₂ i)._bundle = none then (s₂, some .bundleMissing)
        else
          match getA s₂.bundles (((getV s₂ i)._bundle).getD "") with
          | none => (s₂, some .resourceUnavailable)
          | some html =>
            let s₃ := setSurfKids s₂ c [html]
            let s₄ := modV s₃ i (fun w => { w with _viewElement := some html })
            let s₅ := fetchProps s₄ i
            let s₆ := fetchTargetActions s₅ i
            let autoEls := (Elem.descendants html).filter
              (fun e => (dataGet e "loadView").isSome)
            let groups := autoEls.foldl
              (fun m e => groupIns m ((dataGet e "loadView").getD "") e) []
            let s₇ := groups.foldl (fun st g =>
              g.2.foldl (fun st' e =>
                (processAutoAux (fun a b => load010 f a b) st' i e).1) st) s₆
            let s₈ := { s₇ with events := s₇.events ++ [Ev.didLoad i] }
            let s₉ := modV s₈ i (fun w => { w with _viewDidLoadCalled := true })
            let s10 := (getV s₉ i)._childViews.foldl
              (fun st c => (load010 f st c).1) s₉
            (s10, none)

/-- `addChildView` with the fuel-indexed `load`. -/
def addChildView010 (f : Nat) (s : State) (i newId : Nat) : AddRes :=
  addChildViewAux (load010 f) s i newId

end VJS

/-! ### Concrete example states used by the witnesses and counterexamples -/

namespace V021

/-- A single loaded view (for exercising the setter guards). -/
def exLoaded : State :=
  { store := fun j => if j = 0 then
      { _name := some "a", _viewElement := some [Elem.mk [] []],
        _containerElement := some [Elem.mk [("data-view-name", "a")] []] }
      else {},
    next := 1 }

/-- One fresh unloaded view. -/
def exFresh : State := { next := 1 }

/-- The mid-load window of `load` (src/unnamed/part_001): the container
reference has already been assigned a non-empty selection, but the
asynchronous resource callback has not yet produced the view element, so
the `isLoaded` getter still reports `false` while the load is pending. -/
def exLoading : State :=
  { store := fun j => if j = 0 then
      { _name := some "a", _bundle := some "b", _isRootView := true,
        _containerElement := some [Elem.mk [("data-view-name", "a")] []] }
      else {},
    next := 1 }

/-- A root view named "a" over a surface with a matching empty mount slot
and a one-element bundle environment. -/
def exRoot : State :=
  { store := fun j => if j = 0 then
      { _name := some "a", _bundle := some "b", _isRootView := true,
        _childViews := some [] }
      else {},
    next := 1,
    surface := [("a", Elem.mk [("data-view-name", "a"), ("class", "box")] [])],
    bundles := [("b", Elem.mk [("id", "m")] [])] }

/-- `exRoot` after a successful load (the mount slot now carries the
markup). -/
def exRootLoaded : State := (loadV 3 exRoot 0).1

/-- A root "a" with one configured child view "c", both backed by mount
slots and bundles. -/
def exPair : State :=
  { store := fun j =>
      if j = 0 then
        { _name := some "a", _bundle := some "b", _isRootView := true,
          _childViews := some [1] }
      else if j = 1 then
        { _name := some "c", _bundle := some "cb", _parentView := some 0,
          _childViews := some [] }
      else {},
    next := 2,
    surface := [("a", Elem.mk [("data-view-name", "a")] []),
                ("c", Elem.mk [("data-view-name", "c")] [])],
    bundles := [("b", Elem.mk [("id", "m")] []), ("cb", Elem.mk [("id", "mc")] [])] }

/-- `exPair` after loading the root (which recursively loads the child). -/
def exPairLoaded : State := (loadV 4 exPair 0).1

end V021

namespace VJS

/-- A parent with one attached child and a target-action entry whose target
is that child (registered through `registerTargetActionEvent`). -/
def exTA : State :=
  registerTargetActionEvent
    { store := fun j =>
        if j = 0 then { _childViews := [1] }
        else if j = 1 then { _parentView := some 0 } else {},
      next := 2 }
    0 "tap" (some 1) (some "onTap")

/-- A parent with two children, the first two occupying containers "x" and
"y"; a candidate child also declaring container "x" sits detached at id 3. -/
def exConf : State :=
  { store := fun j =>
      if j = 0 then { _isRootView := true, _childViews := [1, 2] }
      else if j = 1 then { _container := some "x", _parentView := some 0 }
      else if j = 2 then { _container := some "y", _parentView := some 0 }
      else if j = 3 then { _container := some "x" }
      else {},
    next := 4 }

/-- An unloaded root view with a container, a bundle and a matching surface
slot, plus a detached candidate child with its own slot. -/
def exAttach : State :=
  { store := fun j =>
      if j = 0 then { _isRootView := true, _container := some "c", _bundle := some "b",
                      _viewDidLoadCalled := true,
                      _containerElement := some ["c"],
                      _viewElement := some (Elem.mk [] []) }
      else if j = 1 then { _container := some "k", _bundle := some "kb" }
      else {},
    next := 2,
    surface := [("c", Elem.mk [] [Elem.mk [] []]), ("k", Elem.mk [] [])],
    bundles := [("b", Elem.mk [] []), ("kb", Elem.mk [("id", "km")] [])] }

/-- Like `exAttach` but with a parent that has not been loaded. -/
def exAttachUnloaded : State :=
  { store := fun j =>
      if j = 0 then { _isRootView := true, _container := some "c", _bundle := some "b" }
      else if j = 1 then { _container := some "k", _bundle := some "kb" }
      else {},
    next := 2,
    surface := [("c", Elem.mk [] []), ("k", Elem.mk [] [])],
    bundles := [("b", Elem.mk [] []), ("kb", Elem.mk [("id", "km")] [])] }

/-- A root view without a configured container. -/
def exNoContainer : State :=
  { store := fun j => if j = 0 then { _isRootView := true } else {}, next := 1 }

/-- A state right after a failed load attempt: the container reference was
assigned an empty selection before the failure. -/
def exFailedLoad : State := (load010 3 exNoContainer 0).1

/-- A loaded parent (id 0) whose mount slot conflicts: an explicit child
(id 1, not automatically created) occupies container "s", and an automatic
child (id 2, automatically created) occupies container "t". -/
def exScan : State :=
  { store := fun j =>
      if j = 0 then { _isRootView := true, _container := some "c",
                      _childViews := [1, 2] }
      else if j = 1 then { _container := some "s", _parentView := some 0 }
      else if j = 2 then { _container := some "t", _parentView := some 0,
                           _wasAutomaticallyCreated := true }
      else {},
    next := 3 }

end VJS


/-! ## Theorems -/

namespace V021

@[simp]
theorem getV_setV_self (s : State) (i : Nat) (v : View) : getV (setV s i v) i = v := by
  simp [getV, setV]

theorem getV_setV_ne (s : State) (i j : Nat) (v : View) (h : j ≠ i) :
    getV (setV s i v) j = getV s j := by
  simp [getV, setV, h]

@[simp]
theorem getV_modV_self (s : State) (i : Nat) (g : View → View) :
    getV (modV s i g) i = g (getV s i) := by
  simp [modV]

@[simp]
theorem getV_mk (st : Nat → View) (n : Nat) (su bu : List (String × Elem))
    (ev : List Ev) (i : Nat) : getV (State.mk st n su bu ev) i = st i := rfl

theorem getV_modV_ne (s : State) (i j : Nat) (g : View → View) (h : j ≠ i) :
    getV (modV s i g) j = getV s j := by
  simp [modV, getV_setV_ne _ _ _ _ h]

@[simp]
theorem surface_setV (s : State) (i : Nat) (v : View) : (setV s i v).surface = s.surface := by
  simp [setV]

@[simp]
theorem events_setV (s : State) (i : Nat) (v : View) : (setV s i v).events = s.events := by
  simp [setV]

@[simp]
theorem bundles_setV (s : State) (i : Nat) (v : View) : (setV s i v).bundles = s.bundles := by
  simp [setV]

@[simp]
theorem surface_modV (s : State) (i : Nat) (g : View → View) :
    (modV s i g).surface = s.surface := by
  simp [modV]

@[simp]
theorem events_modV (s : State) (i : Nat) (g : View → View) :
    (modV s i g).events = s.events := by
  simp [modV]

/-- C2: `load()` fails fast with a reported structural error and performs no
state change whenever one of its preconditions is violated — the parent is
configured but not Loaded, the name is missing, the bundle id is missing, or
the node is non-root without a parent.  The returned state is exactly the
input state, so in particular the node's load state is unchanged and no
field of any node is modified. -/
theorem loadV_fail_fast_no_state_change (f : Nat) (s : State) (i : Nat)
    (h : ((match (getV s i)._parentView with
           | some p => !isLoadedV s p
           | none => false)
          || nameFalsy (getV s i) || bundleFalsy (getV s i)
          || (!(getV s i)._isRootView && (getV s i)._parentView = none)) = true) :
    ∃ e, loadV (f + 1) s i = (s, some e) ∧
      (e = Err.parentNotLoaded ∨ e = Err.nameMissing ∨ e = Err.bundleMissing ∨
       e = Err.detachedFromHierarchy) := by
  by_cases h1 : (match (getV s i)._parentView with
                 | some p => !isLoadedV s p
                 | none => false) = true
  · exact ⟨Err.parentNotLoaded, by simp [loadV, h1], Or.inl rfl⟩
  · by_cases h2 : nameFalsy (getV s i) = true
    · refine ⟨Err.nameMissing, ?_, Or.inr (Or.inl rfl)⟩
      simp [loadV, h1, h2]
    · by_cases h3 : bundleFalsy (getV s i) = true
      · refine ⟨Err.bundleMissing, ?_, Or.inr (Or.inr (Or.inl rfl))⟩
        simp [loadV, h1, h2, h3]
      · by_cases h4 : (!(getV s i)._isRootView && (getV s i)._parentView = none) = true
        · refine ⟨Err.detachedFromHierarchy, ?_, Or.inr (Or.inr (Or.inr rfl))⟩
          simp [loadV, h1, h2, h3, h4]
        · exfalso
          simp only [Bool.or_eq_true] at h
          rcases h with ((h | h) | h) | h
          · exact h1 h
          · exact h2 h
          · exact h3 h
          · exact h4 h

/-- C2 witness: a non-root node without a parent (and a node without a
name) is rejected without a state change. -/
theorem loadV_fail_fast_no_state_change_witness :
    ((match (getV { next := 1 : State } 0)._parentView with
      | some p => !isLoadedV { next := 1 : State } p
      | none => false)
     || nameFalsy (getV { next := 1 : State } 0)
     || bundleFalsy (getV { next := 1 : State } 0)
     || (!(getV { next := 1 : State } 0)._isRootView &&
         (getV { next := 1 : State } 0)._parentView = none)) = true ∧
    ∃ e, loadV 4 { next := 1 : State } 0 = ({ next := 1 : State }, some e) ∧
      (e = Err.parentNotLoaded ∨ e = Err.nameMissing ∨ e = Err.bundleMissing ∨
       e = Err.detachedFromHierarchy) :=
  ⟨by decide, loadV_fail_fast_no_state_change 3 { next := 1 } 0 (by decide)⟩


theorem setChildViews_fold_append (i : Nat) (l : List Nat) :
    ∀ (st : State) (acc : List Nat), (getV st i)._childViews = some acc →
    (getV (l.foldl (fun st c =>
        let st₁ := modV st c (fun v => { v with _parentView := some i })
        modV st₁ i (fun v =>
          { v with _childViews := some (v._childViews.getD [] ++ [c]) })) st) i)._childViews
      = some (acc ++ l) := by
  induction l with
  | nil => intro st acc h; simpa using h
  | cons c t ih =>
    intro st acc h
    simp only [List.foldl_cons]
    have hmid : (getV (modV st c (fun v => { v with _parentView := some i })) i)._childViews
        = some acc := by
      by_cases hic : i = c
      · subst hic; simp [h]
      · rw [getV_modV_ne _ _ _ _ hic]; exact h
    have hstep : (getV (modV (modV st c (fun v => { v with _parentView := some i })) i
        (fun v => { v with _childViews := some (v._childViews.getD [] ++ [c]) })) i)._childViews
        = some (acc ++ [c]) := by
      simp [hmid]
    rw [ih _ (acc ++ [c]) hstep, List.append_assoc]
    rfl

theorem setParentView_not_loaded_ok (s : State) (i : Nat) (p : Option Nat)
    (h : isLoadedV s i = false) :
    (setParentView s i p).2 = none ∧
    ((getV s i)._isRootView = false → (getV (setParentView s i p).1 i)._parentView = p) := by
  simp only [setParentView, h, Bool.false_eq_true, if_false]
  by_cases hroot : (getV s i)._isRootView = true
  · simp [hroot]
  · simp only [Bool.not_eq_true] at hroot
    simp only [hroot, Bool.false_eq_true, if_false]
    cases p with
    | none => simp
    | some q =>
      constructor
      · cases hq : (getV (modV s i (fun v => { v with _parentView := some q })) q)._childViews
          <;> simp [hq]
      · intro _
        cases hq : (getV (modV s i (fun v => { v with _parentView := some q })) q)._childViews
          with
        | none => simp [hq]
        | some l =>
          simp only [hq]
          by_cases hqi : i = q
          · subst hqi; simp
          · rw [getV_modV_ne _ _ _ _ hqi]
            simp

/-- C9 (amended): the setter guards are keyed on the `isLoaded` getter —
both element references present and non-empty — which is `true` only in
the fully Loaded state.  While `isLoaded` is `true`, every mutating
property setter (`name`, `bundle`, `isRootView`, `parentView`,
`childViews`) reports an error and leaves the state (hence the property)
unchanged; while it is `false` the same assignments succeed and take
effect on the stored property (the parent assignment takes effect on
non-root nodes; on a root node it returns without error as a silent
no-op).  The not-`Unloaded` states are NOT all guarded: in the pending
mid-load window — the container reference assigned but the view element
not yet produced by the resource callback — `isLoaded` is still `false`
(third conjunct), so the guard does not fire and the setters succeed
there by the second conjunct. -/
theorem setters_guarded_by_load_state (s : State) (i : Nat) (n b : Option String)
    (r : Option Bool) (p : Option Nat) (cs : Option (List Nat)) :
    (isLoadedV s i = true →
      setName s i n = (s, some .cannotChangeWhileLoaded) ∧
      setBundle s i b = (s, some .cannotChangeWhileLoaded) ∧
      setIsRootView s i r = (s, some .cannotChangeWhileLoaded) ∧
      setParentView s i p = (s, some .cannotChangeWhileLoaded) ∧
      setChildViews s i cs = (s, some .cannotChangeWhileLoaded)) ∧
    (isLoadedV s i = false →
      (setName s i n).2 = none ∧ (getV (setName s i n).1 i)._name = n ∧
      (setBundle s i b).2 = none ∧ (getV (setBundle s i b).1 i)._bundle = b ∧
      (setIsRootView s i r).2 = none ∧
      (getV (setIsRootView s i r).1 i)._isRootView = r.getD false ∧
      (setParentView s i p).2 = none ∧
      ((getV s i)._isRootView = false → (getV (setParentView s i p).1 i)._parentView = p) ∧
      (setChildViews s i cs).2 = none ∧
      (getV (setChildViews s i cs).1 i)._childViews = some (cs.getD [])) ∧
    ((getV s i)._viewElement = none → isLoadedV s i = false) := by
  refine ⟨?_, ?_, ?_⟩
  · intro h
    refine ⟨?_, ?_, ?_, ?_, ?_⟩ <;> simp [setName, setBundle, setIsRootView,
      setParentView, setChildViews, h]
  · intro h
    refine ⟨?_, ?_, ?_, ?_, ?_, ?_,
      (setParentView_not_loaded_ok s i p h).1, (setParentView_not_loaded_ok s i p h).2,
      ?_, ?_⟩
    · simp [setName, h]
    · simp [setName, h]
    · simp [setBundle, h]
    · simp [setBundle, h]
    · simp [setIsRootView, h]
    · simp [setIsRootView, h]
    · simp only [setChildViews, h, Bool.false_eq_true, if_false]
    · simp only [setChildViews, h, Bool.false_eq_true, if_false]
      have hbase : (getV (modV ((((getV s i)._childViews).getD []).foldl
          (fun st c => modV st c (fun v => { v with _parentView := none })) s) i
          (fun v => { v with _childViews := some [] })) i)._childViews = some [] := by
        simp
      have := setChildViews_fold_append i (cs.getD []) _ [] hbase
      simpa using this
  · intro h
    simp [isLoadedV, h]

/-- C9 counterexample: `exLoading` is a node in the pending (Loading)
state — the container reference holds a non-empty selection while the view
element is still missing, exactly the window between the container
assignment and the resource callback in `load` — yet its load state is not
`Unloaded`-with-no-container, `isLoaded` reports `false`, and the `name`
setter succeeds silently and changes the property instead of raising. -/
theorem setters_loading_window_counterexample :
    (getV exLoading 0)._containerElement =
      some [Elem.mk [("data-view-name", "a")] []] ∧
    (getV exLoading 0)._viewElement = none ∧
    isLoadedV exLoading 0 = false ∧
    (setName exLoading 0 (some "x")).2 = none ∧
    (getV (setName exLoading 0 (some "x")).1 0)._name = some "x" := by
  decide

/-- C9 witness: the guarded direction on a loaded view, the permissive
direction on a node sitting in the mid-load window, and the window's
`isLoaded = false` classification, at concrete inputs. -/
theorem setters_guarded_by_load_state_witness :
    (isLoadedV exLoaded 0 = true ∧
      setName exLoaded 0 (some "x") = (exLoaded, some .cannotChangeWhileLoaded)) ∧
    (isLoadedV exLoading 0 = false ∧
      (setName exLoading 0 (some "x")).2 = none ∧
      (getV (setName exLoading 0 (some "x")).1 0)._name = some "x") ∧
    ((getV exLoading 0)._viewElement = none ∧ isLoadedV exLoading 0 = false) := by
  refine ⟨⟨by decide, ?_⟩, ⟨by decide, ?_, ?_⟩, ⟨by decide, ?_⟩⟩
  · exact ((setters_guarded_by_load_state exLoaded 0 (some "x") (some "x") (some true)
      none none).1 (by decide)).1
  · exact ((setters_guarded_by_load_state exLoading 0 (some "x") (some "x") (some true)
      none none).2.1 (by decide)).1
  · exact ((setters_guarded_by_load_state exLoading 0 (some "x") (some "x") (some true)
      none none).2.1 (by decide)).2.1
  · exact (setters_guarded_by_load_state exLoading 0 (some "x") (some "x") (some true)
      none none).2.2 (by decide)

theorem addFold_parentView_self (i : Nat) (l : List Nat) (hi : i ∉ l) :
    ∀ st : State,
    (getV (l.foldl (fun st c =>
        let st₁ := modV st c (fun v => { v with _parentView := some i })
        modV st₁ i (fun v =>
          { v with _childViews := some (v._childViews.getD [] ++ [c]) })) st) i)._parentView
      = (getV st i)._parentView := by
  induction l with
  | nil => intro st; rfl
  | cons c t ih =>
    intro st
    simp only [List.foldl_cons]
    rw [ih (by intro hmem; exact hi (List.mem_cons_of_mem _ hmem))]
    have hci : ¬(i = c) := by
      intro hh; exact hi (hh ▸ List.mem_cons_self _ _)
    simp only [getV_modV_self]
    rw [getV_modV_ne _ _ _ _ hci]

theorem addFold_childViews_other (i p : Nat) (l : List Nat) (hpi : p ≠ i) :
    ∀ st : State,
    (getV (l.foldl (fun st c =>
        let st₁ := modV st c (fun v => { v with _parentView := some i })
        modV st₁ i (fun v =>
          { v with _childViews := some (v._childViews.getD [] ++ [c]) })) st) p)._childViews
      = (getV st p)._childViews := by
  induction l with
  | nil => intro st; rfl
  | cons c t ih =>
    intro st
    simp only [List.foldl_cons]
    rw [ih]
    rw [getV_modV_ne _ _ _ _ hpi]
    by_cases hpc : p = c
    · subst hpc; simp
    · rw [getV_modV_ne _ _ _ _ hpc]

/-- C10: a node constructed with `isRootView = true` and a configured parent
silently ignores the parent assignment — its parent reference stays
undefined and it is not appended to the would-be parent's children — while
for a node constructed non-root the same assignment sets the parent
reference and appends the fresh node to that parent's children. -/
theorem construct_root_parent_noop (s : State) (cfg : Config) (p : Nat)
    (hp : p ≠ s.next) (hpar : cfg.parentView = some p) :
    (cfg.isRootView = some true → s.next ∉ cfg.childViews.getD [] →
      (getV (construct s cfg).1 (construct s cfg).2)._parentView = none ∧
      (getV (construct s cfg).1 p)._childViews = (getV s p)._childViews) ∧
    (cfg.isRootView.getD false = false → cfg.childViews = none →
      ∀ l, (getV s p)._childViews = some l →
        (getV (construct s cfg).1 (construct s cfg).2)._parentView = some p ∧
        (getV (construct s cfg).1 p)._childViews = some (l ++ [s.next])) := by
  have hps : s.next ≠ p := fun hh => hp hh.symm
  constructor
  · intro hroot hfresh
    simp only [construct, hpar, hroot, setName, setBundle, setIsRootView, setParentView,
      setChildViews, isLoadedV, getV_setV_self, getV_modV_self, Option.getD_some,
      Bool.false_eq_true, if_false, Option.getD_none, List.foldl_nil, if_true,
      addFold_parentView_self s.next (cfg.childViews.getD []) hfresh,
      addFold_childViews_other s.next p (cfg.childViews.getD []) hp,
      getV_modV_ne _ _ _ _ hp, getV_modV_ne _ _ _ _ hps,
      getV_setV_ne _ _ _ _ hp, getV_setV_ne _ _ _ _ hps]
    exact ⟨trivial, rfl⟩
  · intro hroot hcs l hl
    have hl' : (s.store p)._childViews = some l := hl
    simp only [construct, hpar, hcs, setName, setBundle, setIsRootView, setParentView,
      setChildViews, isLoadedV, getV_setV_self, getV_modV_self, getV_mk, hroot,
      Bool.false_eq_true, if_false, Option.getD_none, List.foldl_nil, if_true,
      getV_modV_ne _ _ _ _ hp, getV_modV_ne _ _ _ _ hps,
      getV_setV_ne _ _ _ _ hp, getV_setV_ne _ _ _ _ hps, hl', hl,
      Option.getD_some]
    exact ⟨trivial, trivial⟩

/-- C10 witness: constructing against the concrete parent `exRoot`: with
`isRootView = true` the parent assignment is silently dropped; without it
the parent reference is set and the fresh node is appended. -/
theorem construct_root_parent_noop_witness :
    ((getV (construct exRoot { isRootView := some true, parentView := some 0 }).1
        (construct exRoot { isRootView := some true, parentView := some 0 }).2)._parentView
          = none ∧
     (getV (construct exRoot { isRootView := some true, parentView := some 0 }).1 0)._childViews
          = (getV exRoot 0)._childViews) ∧
    ((getV (construct exRoot { parentView := some 0 }).1
        (construct exRoot { parentView := some 0 }).2)._parentView = some 0 ∧
     (getV (construct exRoot { parentView := some 0 }).1 0)._childViews
          = some ([] ++ [exRoot.next])) := by
  constructor
  · exact (construct_root_parent_noop exRoot
      { isRootView := some true, parentView := some 0 } 0 (by decide) rfl).1 rfl (by decide)
  · exact (construct_root_parent_noop exRoot
      { parentView := some 0 } 0 (by decide) rfl).2 rfl rfl [] (by decide)

/-! ### Frame and reachability lemmas for the 0.2.1 lifecycle -/

theorem getV_restoreBackup (s : State) (i j : Nat) :
    getV (restoreBackup s i) j = getV s j := by
  unfold restoreBackup
  split <;> rfl

theorem events_restoreBackup (s : State) (i : Nat) :
    (restoreBackup s i).events = s.events := by
  unfold restoreBackup
  split <;> rfl

theorem reachD_congr {ch₁ ch₂ : Nat → List Nat} (h : ∀ x, ch₁ x = ch₂ x) :
    ∀ (f : Nat) (v : Nat), reachD ch₁ f v = reachD ch₂ f v := by
  intro f
  induction f with
  | zero => intro v; rfl
  | succ f ih =>
    intro v
    simp only [reachD, h v]
    congr 1
    exact List.flatMap_congr (fun c _ => ih c)

theorem reachD_child_subset {ch : Nat → List Nat} {f : Nat} {w c : Nat}
    (hc : c ∈ ch w) : ∀ x ∈ reachD ch f c, x ∈ reachD ch (f + 1) w := by
  intro x hx
  simp only [reachD, List.mem_cons, List.mem_flatMap]
  exact Or.inr ⟨c, hc, hx⟩

/-- `unload` never changes the name or children structure of any node. -/
theorem unloadV_keeps (f : Nat) : ∀ (s : State) (i j : Nat),
    (getV (unloadV f s i) j)._name = (getV s j)._name ∧
    (getV (unloadV f s i) j)._childViews = (getV s j)._childViews := by
  induction f with
  | zero => intro s i j; exact ⟨rfl, rfl⟩
  | succ f ih =>
    intro s i j
    by_cases hl : isLoadedV s i = true
    · have hfold : ∀ (cs : List Nat) (st : State),
          (getV (cs.foldl (fun st c => unloadV f st c) st) j)._name = (getV st j)._name ∧
          (getV (cs.foldl (fun st c => unloadV f st c) st) j)._childViews
            = (getV st j)._childViews := by
        intro cs
        induction cs with
        | nil => intro st; exact ⟨rfl, rfl⟩
        | cons c rest ihc =>
          intro st
          simp only [List.foldl_cons]
          obtain ⟨h1, h2⟩ := ihc (unloadV f st c)
          obtain ⟨g1, g2⟩ := ih st c j
          exact ⟨h1.trans g1, h2.trans g2⟩
      simp only [unloadV, hl, if_true]
      obtain ⟨h1, h2⟩ := hfold (chV s i) s
      by_cases hj : j = i
      · subst hj
        constructor
        · simpa [getV_restoreBackup] using h1
        · simpa [getV_restoreBackup] using h2
      · rw [getV_modV_ne _ _ _ _ hj, getV_restoreBackup]
        exact ⟨h1, h2⟩
    · simp [unloadV, hl]

theorem chFun_unloadV (f : Nat) (s : State) (i x : Nat) :
    chFun (unloadV f s i) x = chFun s x := by
  simp [chFun, chV, (unloadV_keeps f s i x).2]

/-- `unload` never loads anything: an unloaded node stays unloaded. -/
theorem unloadV_monotone (f : Nat) : ∀ (s : State) (i x : Nat),
    isLoadedV s x = false → isLoadedV (unloadV f s i) x = false := by
  induction f with
  | zero => intro s i x h; exact h
  | succ f ih =>
    intro s i x h
    by_cases hl : isLoadedV s i = true
    · have hfold : ∀ (cs : List Nat) (st : State), isLoadedV st x = false →
          isLoadedV (cs.foldl (fun st c => unloadV f st c) st) x = false := by
        intro cs
        induction cs with
        | nil => intro st hst; exact hst
        | cons c rest ihc =>
          intro st hst
          simp only [List.foldl_cons]
          exact ihc _ (ih st c x hst)
      simp only [unloadV, hl, if_true]
      by_cases hj : x = i
      · subst hj
        simp [isLoadedV]
      · rw [isLoadedV]
        rw [getV_modV_ne _ _ _ _ hj, getV_restoreBackup]
        have : isLoadedV ({ (chV s i).foldl (fun st c => unloadV f st c) s with
            events := ((chV s i).foldl (fun st c => unloadV f st c) s).events
              ++ [Ev.willUnload i] } : State) x = false := by
          have hfx := hfold (chV s i) s h
          rw [isLoadedV] at hfx ⊢
          exact hfx
        rw [isLoadedV] at this
        exact this
    · simpa [unloadV, hl] using h

theorem isLoadedV_eq_of_getV {s₁ s₂ : State} {x : Nat} (h : getV s₁ x = getV s₂ x) :
    isLoadedV s₁ x = isLoadedV s₂ x := by
  rw [isLoadedV, isLoadedV, h]

/-- `unload` does not modify the stored object of any node outside the
reachable region of the unloaded node. -/
theorem unloadV_outside (f : Nat) : ∀ (s : State) (w j : Nat),
    j ∉ reachD (chFun s) f w → getV (unloadV f s w) j = getV s j := by
  induction f with
  | zero => intro s w j _; rfl
  | succ f ih =>
    intro s w j hj
    simp only [reachD, List.mem_cons, List.mem_flatMap] at hj
    push_neg at hj
    obtain ⟨hjw, hjc⟩ := hj
    by_cases hl : isLoadedV s w = true
    · have fold_outside : ∀ (cs : List Nat) (st : State),
          (∀ x, chFun st x = chFun s x) →
          (∀ c ∈ cs, j ∉ reachD (chFun s) f c) →
          getV (cs.foldl (fun st c => unloadV f st c) st) j = getV st j := by
        intro cs
        induction cs with
        | nil => intro st _ _; rfl
        | cons c rest ihc =>
          intro st hst hcs
          simp only [List.foldl_cons]
          have h1 : getV (unloadV f st c) j = getV st j := by
            apply ih
            rw [reachD_congr hst]
            exact hcs c (List.mem_cons_self _ _)
          have h2 : ∀ x, chFun (unloadV f st c) x = chFun s x := by
            intro x; rw [chFun_unloadV]; exact hst x
          rw [ihc (unloadV f st c) h2 (fun c' hc' => hcs c' (List.mem_cons_of_mem _ hc'))]
          exact h1
      simp only [unloadV, hl, if_true]
      rw [getV_modV_ne _ _ _ _ hjw, getV_restoreBackup]
      exact fold_outside (chV s w) s (fun _ => rfl) (fun c hc => hjc c hc)
    · simp [unloadV, hl]

/-- In a hierarchy where no child of an unloaded node is loaded, every node
reachable from an unloaded node is unloaded. -/
theorem loaded_down_reach : ∀ (f : Nat) (s : State) (w : Nat),
    (∀ d ∈ reachD (chFun s) f w, isLoadedV s d = false →
      ∀ c ∈ chFun s d, isLoadedV s c = false) →
    isLoadedV s w = false → ∀ d ∈ reachD (chFun s) f w, isLoadedV s d = false := by
  intro f
  induction f with
  | zero => intro s w _ _ d hd; simp [reachD] at hd
  | succ f ih =>
    intro s w hdc hw d hd
    simp only [reachD, List.mem_cons, List.mem_flatMap] at hd
    rcases hd with rfl | ⟨c, hc, hdc'⟩
    · exact hw
    · have hcw : isLoadedV s c = false := by
        refine hdc w ?_ hw c hc
        simp [reachD]
      exact ih s c (fun d' hd' => hdc d' (reachD_child_subset hc d' hd')) hcw d hdc'

/-- Unloading a list of children in sequence: the events appended contain a
will-unload notification for every loaded node in the children's reachable
regions. -/
theorem fold_emits_of (f : Nat)
    (E : ∀ (s' : State) (w : Nat),
      (reachD (chFun s') f w).Nodup →
      (∀ d ∈ reachD (chFun s') f w, isLoadedV s' d = false →
        ∀ c ∈ chFun s' d, isLoadedV s' c = false) →
      ∃ t, (unloadV f s' w).events = s'.events ++ t ∧
        ∀ d ∈ reachD (chFun s') f w, isLoadedV s' d = true → Ev.willUnload d ∈ t)
    (s : State) :
    ∀ (cs : List Nat) (s' : State),
      (∀ x, chFun s' x = chFun s x) →
      (∀ x ∈ cs.flatMap (reachD (chFun s) f), getV s' x = getV s x) →
      (cs.flatMap (reachD (chFun s) f)).Nodup →
      (∀ d ∈ cs.flatMap (reachD (chFun s) f), isLoadedV s d = false →
        ∀ c ∈ chFun s d, isLoadedV s c = false) →
      (∀ x, isLoadedV s x = false → isLoadedV s' x = false) →
      ∃ t, (cs.foldl (fun st c => unloadV f st c) s').events = s'.events ++ t ∧
        ∀ d ∈ cs.flatMap (reachD (chFun s) f), isLoadedV s d = true →
          Ev.willUnload d ∈ t := by
  intro cs
  induction cs with
  | nil =>
    intro s' _ _ _ _ _
    exact ⟨[], by simp, by simp⟩
  | cons c rest ihc =>
    intro s' hch hag hnd hdc hmono
    rw [List.flatMap_cons] at hnd hag hdc
    have hsplit := List.nodup_append.mp hnd
    obtain ⟨hnd₁, hnd₂, hdisj⟩ := hsplit
    -- apply E to the first child
    have hgc : ∀ x ∈ reachD (chFun s) f c, getV s' x = getV s x := by
      intro x hx; exact hag x (List.mem_append.mpr (Or.inl hx))
    have hreq : reachD (chFun s') f c = reachD (chFun s) f c := reachD_congr hch f c
    obtain ⟨t₁, he₁, hm₁⟩ := E s' c
      (by rw [hreq]; exact hnd₁)
      (by
        rw [hreq]
        intro d hd hdl c' hc'
        rw [hch] at hc'
        have hgd := hgc d hd
        have hld : isLoadedV s d = false := by
          rw [← isLoadedV_eq_of_getV hgd]; exact hdl
        exact hmono c' (hdc d (List.mem_append.mpr (Or.inl hd)) hld c' hc'))
    -- apply the induction hypothesis to the rest
    have hch'' : ∀ x, chFun (unloadV f s' c) x = chFun s x := by
      intro x; rw [chFun_unloadV]; exact hch x
    have hag'' : ∀ x ∈ rest.flatMap (reachD (chFun s) f), getV (unloadV f s' c) x = getV s x := by
      intro x hx
      have hxn : x ∉ reachD (chFun s') f c := by
        rw [hreq]
        intro hxc
        exact hdisj hxc hx
      rw [unloadV_outside f s' c x hxn]
      exact hag x (List.mem_append.mpr (Or.inr hx))
    obtain ⟨t₂, he₂, hm₂⟩ := ihc (unloadV f s' c) hch'' hag'' hnd₂
      (fun d hd => hdc d (List.mem_append.mpr (Or.inr hd)))
      (fun x hx => unloadV_monotone f s' c x (hmono x hx))
    refine ⟨t₁ ++ t₂, ?_, ?_⟩
    · simp only [List.foldl_cons]
      rw [he₂, he₁, List.append_assoc]
    · intro d hd hld
      rcases List.mem_append.mp hd with hd₁ | hd₂
      · have : isLoadedV s' d = true := by
          rw [isLoadedV_eq_of_getV (hgc d hd₁)]; exact hld
        exact List.mem_append.mpr (Or.inl (hm₁ d (hreq ▸ hd₁) this))
      · exact List.mem_append.mpr (Or.inr (hm₂ d hd₂ hld))

/-- Unloading a node appends, for every loaded node in its reachable
region, a will-unload notification to the trace. -/
theorem unload_emits : ∀ (f : Nat) (s : State) (w : Nat),
    (reachD (chFun s) f w).Nodup →
    (∀ d ∈ reachD (chFun s) f w, isLoadedV s d = false →
      ∀ c ∈ chFun s d, isLoadedV s c = false) →
    ∃ t, (unloadV f s w).events = s.events ++ t ∧
      ∀ d ∈ reachD (chFun s) f w, isLoadedV s d = true → Ev.willUnload d ∈ t := by
  intro f
  induction f with
  | zero =>
    intro s w _ _
    exact ⟨[], by simp [unloadV], by simp [reachD]⟩
  | succ f ih =>
    intro s w hnd hdc
    by_cases hw : isLoadedV s w = true
    · have hnd' : ((chFun s w).flatMap (reachD (chFun s) f)).Nodup := by
        have : (reachD (chFun s) (f + 1) w).Nodup := hnd
        rw [reachD] at this
        exact this.of_cons
      obtain ⟨t, he, hm⟩ := fold_emits_of f (fun s' w' h1 h2 => ih s' w' h1 h2) s
        (chFun s w) s (fun _ => rfl) (fun x _ => rfl) hnd'
        (fun d hd => hdc d (by
          rw [reachD]
          exact List.mem_cons_of_mem _ hd))
        (fun x hx => hx)
      refine ⟨t ++ [Ev.willUnload w], ?_, ?_⟩
      · simp only [unloadV, hw, if_true]
        have hev : ∀ (st : State) (g : View → View), (modV st w g).events = st.events :=
          fun st g => events_modV st w g
        rw [hev, events_restoreBackup]
        show ((chV s w).foldl (fun st c => unloadV f st c) s).events ++ [Ev.willUnload w]
          = s.events ++ (t ++ [Ev.willUnload w])
        have : chV s w = chFun s w := rfl
        rw [this, he, List.append_assoc]
      · intro d hd hld
        rw [reachD] at hd
        rcases List.mem_cons.mp hd with rfl | hd'
        · exact List.mem_append.mpr (Or.inr (List.mem_singleton.mpr rfl))
        · exact List.mem_append.mpr (Or.inl (hm d hd' hld))
    · have hwf : isLoadedV s w = false := by
        cases h : isLoadedV s w
        · rfl
        · exact absurd h hw
      refine ⟨[], by simp [unloadV, hwf], ?_⟩
      intro d hd hld
      exact absurd (loaded_down_reach (f + 1) s w hdc hwf d hd) (by simp [hld])

/-- C5: for a loaded node in a well-formed hierarchy (duplicate-free
reachable region whose unloaded nodes have no loaded children), `unload`
recursively unloads every child before the node's own will-unload hook and
notification fire: the trace ends with the node's own will-unload event,
and the will-unload event of every loaded descendant (within the recursion
budget) occurs strictly before it. -/
theorem unload_descendants_before_parent_willUnload (f : Nat) (s : State) (i : Nat)
    (hload : isLoadedV s i = true)
    (hnd : (reachD (chFun s) (f + 1) i).Nodup)
    (hdc : ∀ d ∈ reachD (chFun s) (f + 1) i, isLoadedV s d = false →
      ∀ c ∈ chFun s d, isLoadedV s c = false) :
    ∃ T, (unloadV (f + 1) s i).events = s.events ++ T ++ [Ev.willUnload i] ∧
      ∀ d ∈ (chFun s i).flatMap (reachD (chFun s) f), isLoadedV s d = true →
        Ev.willUnload d ∈ T := by
  have hnd' : ((chFun s i).flatMap (reachD (chFun s) f)).Nodup := by
    have : (reachD (chFun s) (f + 1) i).Nodup := hnd
    rw [reachD] at this
    exact this.of_cons
  obtain ⟨T, he, hm⟩ := fold_emits_of f (fun s' w' h1 h2 => unload_emits f s' w' h1 h2) s
    (chFun s i) s (fun _ => rfl) (fun x _ => rfl) hnd'
    (fun d hd => hdc d (by rw [reachD]; exact List.mem_cons_of_mem _ hd))
    (fun x hx => hx)
  refine ⟨T, ?_, hm⟩
  simp only [unloadV, hload, if_true]
  rw [events_modV, events_restoreBackup]
  show ((chV s i).foldl (fun st c => unloadV f st c) s).events ++ [Ev.willUnload i]
    = s.events ++ T ++ [Ev.willUnload i]
  have hcv : chV s i = chFun s i := rfl
  rw [hcv, he, List.append_assoc]

/-- C5 witness: unloading the loaded two-node hierarchy `exPairLoaded`
fires the child's will-unload before the root's. -/
theorem unload_descendants_before_parent_willUnload_witness :
    (isLoadedV exPairLoaded 0 = true ∧
     (reachD (chFun exPairLoaded) 2 0).Nodup ∧
     1 ∈ (chFun exPairLoaded 0).flatMap (reachD (chFun exPairLoaded) 1) ∧
     isLoadedV exPairLoaded 1 = true) ∧
    ∃ T, (unloadV 2 exPairLoaded 0).events = exPairLoaded.events ++ T ++ [Ev.willUnload 0] ∧
      ∀ d ∈ (chFun exPairLoaded 0).flatMap (reachD (chFun exPairLoaded) 1),
        isLoadedV exPairLoaded d = true → Ev.willUnload d ∈ T := by
  refine ⟨⟨by decide, by decide, by decide, by decide⟩, ?_⟩
  exact unload_descendants_before_parent_willUnload 1 exPairLoaded 0
    (by decide) (by decide) (by decide)

theorem getA_setA_self {β : Type} (l : List (String × β)) (k : String) (v : β) :
    getA (setA l k v) k = some v := by
  induction l with
  | nil => simp [getA, setA]
  | cons kv t ih =>
    by_cases h : kv.1 = k
    · simp [setA, getA, h]
    · simp [setA, getA, h, ih]

theorem getV_loadApply_ne (s : State) (i : Nat) (n : String) (e html : Elem)
    (j : Nat) (hj : j ≠ i) : getV (loadApply s i n e html) j = getV s j := by
  simp [loadApply, modV, setV, getV, hj]

theorem getV_loadApply_self (s : State) (i : Nat) (n : String) (e html : Elem) :
    getV (loadApply s i n e html) i =
      { getV s i with
        _viewElement := some [((match e.attr "data-view-name" with
            | some dn => (html.addClass e.className).setAttr "data-view-name" dn
            | none => html.addClass e.className) : Elem).setAttr "data-view-controller" "View"],
        _containerElement := some [e] } := by
  simp [loadApply, modV, setV, getV]

theorem loadApply_loaded (s : State) (i : Nat) (n : String) (e html : Elem) :
    isLoadedV (loadApply s i n e html) i = true := by
  simp [isLoadedV, getV_loadApply_self]

theorem chV_loadApply (s : State) (i : Nat) (n : String) (e html : Elem) (x : Nat) :
    chV (loadApply s i n e html) x = chV s x := by
  by_cases hx : x = i
  · rw [hx, chV, chV, getV_loadApply_self]
  · rw [chV, chV, getV_loadApply_ne s i n e html x hx]

theorem chFun_loadApply (s : State) (i : Nat) (n : String) (e html : Elem) (x : Nat) :
    chFun (loadApply s i n e html) x = chFun s x :=
  chV_loadApply s i n e html x

/-- `load` never changes the name or children structure of any node. -/
theorem loadV_keeps (f : Nat) : ∀ (s : State) (i j : Nat),
    (getV (loadV f s i).1 j)._name = (getV s j)._name ∧
    (getV (loadV f s i).1 j)._childViews = (getV s j)._childViews := by
  induction f with
  | zero => intro s i j; exact ⟨rfl, rfl⟩
  | succ f ih =>
    intro s i
    suffices h : ∀ j, (getV (loadV (f + 1) s i).1 j)._name = (getV s j)._name ∧
        (getV (loadV (f + 1) s i).1 j)._childViews = (getV s j)._childViews by
      intro j; exact h j
    set P : State → Prop := fun st => ∀ j,
      (getV st j)._name = (getV s j)._name ∧
      (getV st j)._childViews = (getV s j)._childViews with hP
    show P ((loadV (f + 1) s i).1)
    have hPs : P s := fun j => ⟨rfl, rfl⟩
    have hPunload : ∀ st, P st → P (unloadV (f + 1) st i) := by
      intro st hp j
      exact ⟨(unloadV_keeps (f + 1) st i j).1.trans (hp j).1,
             (unloadV_keeps (f + 1) st i j).2.trans (hp j).2⟩
    have hPmodCE : ∀ (st : State) (x : Option (List Elem)), P st →
        P (modV st i (fun w => { w with _containerElement := x })) := by
      intro st x hp j
      by_cases hj : j = i
      · rw [hj, getV_modV_self]
        exact hp i
      · rw [getV_modV_ne _ _ _ _ hj]
        exact hp j
    have hPmodVE : ∀ (st : State) (x y : Option (List Elem)), P st →
        P (modV st i (fun w => { w with _viewElement := x, _containerElement := y })) := by
      intro st x y hp j
      by_cases hj : j = i
      · rw [hj, getV_modV_self]
        exact hp i
      · rw [getV_modV_ne _ _ _ _ hj]
        exact hp j
    have hPla : ∀ (st : State) (n' : String) (e' h' : Elem), P st →
        P (loadApply st i n' e' h') := by
      intro st n' e' h' hp j
      by_cases hj : j = i
      · rw [hj, getV_loadApply_self]
        exact hp i
      · rw [getV_loadApply_ne st i n' e' h' j hj]
        exact hp j
    have hPfold : ∀ (cs : List Nat) (st : State), P st →
        P (cs.foldl (fun st c => (loadV f st c).1) st) := by
      intro cs
      induction cs with
      | nil => intro st hp; exact hp
      | cons c rest ihc =>
        intro st hp
        simp only [List.foldl_cons]
        refine ihc _ (fun j => ?_)
        exact ⟨(ih st c j).1.trans (hp j).1, (ih st c j).2.trans (hp j).2⟩
    have hPsurf : ∀ (st : State) (x : List (String × Elem)), P st →
        P { st with surface := x } := fun st x hp j => hp j
    have hPev : ∀ (st : State) (x : List Ev), P st →
        P { st with events := x } := fun st x hp j => hp j
    simp only [loadV]
    split
    · exact hPs
    · split
      · exact hPs
      · split
        · exact hPs
        · split
          · exact hPs
          · split
            · exact hPmodCE _ _ (hPunload s hPs)
            · split
              · exact hPmodCE _ _ (hPunload s hPs)
              · split
                · exact hPmodCE _ _ (hPunload s hPs)
                · exact hPfold _ _ (hPla _ _ _ _ (hPmodCE _ _ (hPunload s hPs)))

theorem chFun_loadV (f : Nat) (s : State) (i x : Nat) :
    chFun (loadV f s i).1 x = chFun s x := by
  simp [chFun, chV, (loadV_keeps f s i x).2]

/-- `load` does not modify the stored object of any node outside the
reachable region of the loaded node. -/
theorem loadV_outside (f : Nat) : ∀ (s : State) (w j : Nat),
    j ∉ reachD (chFun s) f w → getV (loadV f s w).1 j = getV s j := by
  induction f with
  | zero => intro s w j _; rfl
  | succ f ih =>
    intro s w j hj
    have hj' := hj
    simp only [reachD, List.mem_cons, List.mem_flatMap] at hj'
    push_neg at hj'
    obtain ⟨hjw, hjc⟩ := hj'
    set Q : State → Prop := fun st => getV st j = getV s j with hQdef
    show Q ((loadV (f + 1) s w).1)
    have hQs : Q s := rfl
    have hQunload : Q (unloadV (f + 1) s w) := unloadV_outside (f + 1) s w j hj
    have hQmodCE : ∀ (st : State) (x : Option (List Elem)), Q st →
        Q (modV st w (fun v => { v with _containerElement := x })) := by
      intro st x hq
      show getV (modV st w _) j = getV s j
      rw [getV_modV_ne _ _ _ _ hjw]
      exact hq
    have hQla : ∀ (st : State) (n' : String) (e' h' : Elem), Q st →
        Q (loadApply st w n' e' h') := by
      intro st n' e' h' hq
      show getV (loadApply st w n' e' h') j = getV s j
      rw [getV_loadApply_ne st w n' e' h' j hjw]
      exact hq
    have hQsurf : ∀ (st : State) (x : List (String × Elem)), Q st →
        Q { st with surface := x } := fun st x hq => hq
    have hQev : ∀ (st : State) (x : List Ev), Q st → Q { st with events := x } :=
      fun st x hq => hq
    have hQfold : ∀ (cs : List Nat) (st : State), Q st →
        (∀ x, chFun st x = chFun s x) →
        (∀ c ∈ cs, j ∉ reachD (chFun s) f c) →
        Q (cs.foldl (fun st c => (loadV f st c).1) st) := by
      intro cs
      induction cs with
      | nil => intro st hq _ _; exact hq
      | cons c rest ihc =>
        intro st hq hch hcs
        simp only [List.foldl_cons]
        refine ihc _ ?_ ?_ (fun c' hc' => hcs c' (List.mem_cons_of_mem _ hc'))
        · show getV (loadV f st c).1 j = getV s j
          have hstep : getV (loadV f st c).1 j = getV st j := by
            apply ih
            rw [reachD_congr hch]
            exact hcs c (List.mem_cons_self _ _)
          rw [hstep]
          exact hq
        · intro x
          rw [chFun_loadV]
          exact hch x
    have hk : ∀ y, ((unloadV (f + 1) s w).store y)._childViews = (s.store y)._childViews :=
      fun y => (unloadV_keeps (f + 1) s w y).2
    simp only [loadV]
    split
    · exact hQs
    · split
      · exact hQs
      · split
        · exact hQs
        · split
          · exact hQs
          · split
            · exact hQmodCE _ _ hQunload
            · split
              · exact hQmodCE _ _ hQunload
              · split
                · exact hQmodCE _ _ hQunload
                · exact hQfold _ _
                    (hQla _ _ _ _ (hQmodCE _ _ hQunload))
                    (by
                      intro x
                      rw [chFun_loadApply]
                      by_cases hxw : x = w <;>
                        simp [chFun, chV, modV, setV, getV, hxw, hk])
                    (by
                      intro c hc
                      rw [show chV _ w = chV s w from ?_] at hc
                      · exact hjc c hc
                      · rw [chV_loadApply]
                        by_cases hww : w = w
                        · simp [chV, modV, setV, getV, hk]
                        · exact absurd rfl hww)

theorem unloadV_not_loaded (f : Nat) (s : State) (i : Nat) (h : isLoadedV s i = false) :
    unloadV f s i = s := by
  cases f with
  | zero => rfl
  | succ f => simp [unloadV, h]

theorem surfaceAt_modV (s : State) (i : Nat) (g : View → View) (n : String) :
    surfaceAt (modV s i g) n = surfaceAt s n := by
  simp [surfaceAt, modV, setV]

theorem unloadFold_outside (f : Nat) (s₀ : State) (j : Nat) : ∀ (cs : List Nat) (st : State),
    (∀ x, chFun st x = chFun s₀ x) →
    (∀ c ∈ cs, j ∉ reachD (chFun s₀) f c) →
    getV (cs.foldl (fun st c => unloadV f st c) st) j = getV st j := by
  intro cs
  induction cs with
  | nil => intro st _ _; rfl
  | cons c rest ihc =>
    intro st hch hcs
    simp only [List.foldl_cons]
    have h1 : getV (unloadV f st c) j = getV st j := by
      apply unloadV_outside
      rw [reachD_congr hch]
      exact hcs c (List.mem_cons_self _ _)
    have h2 : ∀ x, chFun (unloadV f st c) x = chFun s₀ x := by
      intro x; rw [chFun_unloadV]; exact hch x
    rw [ihc (unloadV f st c) h2 (fun c' hc' => hcs c' (List.mem_cons_of_mem _ hc'))]
    exact h1

theorem loadFold_outside (f : Nat) (s₀ : State) (j : Nat) : ∀ (cs : List Nat) (st : State),
    (∀ x, chFun st x = chFun s₀ x) →
    (∀ c ∈ cs, j ∉ reachD (chFun s₀) f c) →
    getV (cs.foldl (fun st c => (loadV f st c).1) st) j = getV st j := by
  intro cs
  induction cs with
  | nil => intro st _ _; rfl
  | cons c rest ihc =>
    intro st hch hcs
    simp only [List.foldl_cons]
    have h1 : getV (loadV f st c).1 j = getV st j := by
      apply loadV_outside
      rw [reachD_congr hch]
      exact hcs c (List.mem_cons_self _ _)
    have h2 : ∀ x, chFun (loadV f st c).1 x = chFun s₀ x := by
      intro x; rw [chFun_loadV]; exact hch x
    rw [ihc ((loadV f st c).1) h2 (fun c' hc' => hcs c' (List.mem_cons_of_mem _ hc'))]
    exact h1

/-- Unloading a loaded node whose backup selection is `[e]` puts `e` back
at its mount location, whatever the children did. -/
theorem unload_surface_restore (f : Nat) (s₀ s' : State) (i : Nat) (n : String) (e : Elem)
    (hch : ∀ x, chFun s' x = chFun s₀ x)
    (hmem : ∀ c ∈ chFun s₀ i, i ∉ reachD (chFun s₀) f c)
    (hnm : (getV s' i)._name = some n)
    (hct : (getV s' i)._containerElement = some [e])
    (hld : isLoadedV s' i = true) :
    surfaceAt (unloadV (f + 1) s' i) n = some e := by
  have hfold : getV ((chV s' i).foldl (fun st c => unloadV f st c) s') i = getV s' i := by
    refine unloadFold_outside f s' i (chV s' i) s' (fun _ => rfl) ?_
    intro c hc
    rw [reachD_congr hch]
    refine hmem c ?_
    rw [← hch i]
    exact hc
  simp only [unloadV, hld, if_true]
  rw [surfaceAt_modV]
  have h2 : getV ({ (chV s' i).foldl (fun st c => unloadV f st c) s' with
      events := ((chV s' i).foldl (fun st c => unloadV f st c) s').events
        ++ [Ev.willUnload i] } : State) i = getV s' i := hfold
  rw [restoreBackup, h2, hnm, hct]
  simp [surfaceAt, getA_setA_self]

theorem bundles_modV (s : State) (i : Nat) (g : View → View) :
    (modV s i g).bundles = s.bundles := by
  simp [modV]

/-- C1 (amended): for every node that is Unloaded at the time of the call,
a successful `load()` immediately followed by `unload()` returns the mount
location's content to the exact value it had before the load call — the
saved backing content is restored at the mount location.  (For a node that
is already loaded, the round trip instead restores the pre-first-load
backing content; see the counterexample.) -/
theorem load_unload_roundtrip_from_unloaded (f : Nat) (s : State) (i : Nat) (n : String)
    (hname : (getV s i)._name = some n)
    (hnl : isLoadedV s i = false)
    (hacyc : i ∉ (chFun s i).flatMap (reachD (chFun s) f))
    (hok : (loadV (f + 1) s i).2 = none) :
    surfaceAt (unloadV (f + 1) (loadV (f + 1) s i).1 i) n = surfaceAt s n := by
  have hun : unloadV (f + 1) s i = s := unloadV_not_loaded (f + 1) s i hnl
  -- the precondition checks must all pass
  by_cases hc1 : (match (getV s i)._parentView with
      | some p => !isLoadedV s p
      | none => false) = true
  · exfalso; simp [loadV, hc1] at hok
  by_cases hc2 : nameFalsy (getV s i) = true
  · exfalso; simp [loadV, hc1, hc2] at hok
  by_cases hc3 : bundleFalsy (getV s i) = true
  · exfalso; simp [loadV, hc1, hc2, hc3] at hok
  by_cases hc4 : (!(getV s i)._isRootView && (getV s i)._parentView = none) = true
  · exfalso; simp [loadV, hc1, hc2, hc3, hc4] at hok
  -- the container must resolve to an element e
  rcases hsel : getA s.surface n with _ | e
  · exfalso
    simp [loadV, hc1, hc2, hc3, hc4, hun, hname, hsel] at hok
  -- the container must be empty and the bundle must resolve
  by_cases hkids : e.kids.isEmpty = true
  swap
  · exfalso
    simp [loadV, hc1, hc2, hc3, hc4, hun, hname, hsel, hkids] at hok
  rcases hbun : getA s.bundles (((getV s i)._bundle).getD "") with _ | html
  · exfalso
    simp [loadV, hc1, hc2, hc3, hc4, hun, hname, hsel, hkids, bundles_modV, hbun] at hok
  -- the loaded state of node i
  have hmem : ∀ c ∈ chFun s i, i ∉ reachD (chFun s) f c := by
    intro c hc hmemr
    exact hacyc (List.mem_flatMap.mpr ⟨c, hc, hmemr⟩)
  have hfields : (getV (loadV (f + 1) s i).1 i)._name = some n ∧
      (getV (loadV (f + 1) s i).1 i)._containerElement = some [e] ∧
      isLoadedV (loadV (f + 1) s i).1 i = true := by
    simp only [loadV, hc1, hc2, hc3, hc4, Bool.false_eq_true, if_false, hun, hname,
      Option.getD_some, hsel, hkids, Bool.not_true, bundles_modV, getV_modV_self, hbun]
    set SA := loadApply (modV s i (fun w => { w with _containerElement := some [e] }))
      i n e html with hSA
    have hchSA : ∀ x, chFun SA x = chFun s x := by
      intro x
      rw [hSA, chFun_loadApply]
      by_cases hx : x = i
      · rw [hx]; simp [chFun, chV]
      · simp [chFun, chV, getV_modV_ne _ _ _ _ hx]
    have hfold : getV ((chV SA i).foldl (fun st c => (loadV f st c).1) SA) i = getV SA i := by
      refine loadFold_outside f s i (chV SA i) SA hchSA ?_
      intro c hc
      refine hmem c ?_
      rw [← hchSA i]
      exact hc
    refine ⟨?_, ?_, ?_⟩
    · rw [hfold, hSA, getV_loadApply_self]
      simp [hname]
    · rw [hfold, hSA, getV_loadApply_self]
    · rw [isLoadedV_eq_of_getV hfold, hSA]
      exact loadApply_loaded _ _ _ _ _
  obtain ⟨hn', hc', hl'⟩ := hfields
  have hchS' : ∀ x, chFun (loadV (f + 1) s i).1 x = chFun s x := fun x => chFun_loadV _ _ _ _
  rw [unload_surface_restore f s ((loadV (f + 1) s i).1) i n e hchS' hmem hn' hc' hl']
  simp [surfaceAt, hsel]

/-- C1 witness: the concrete root view `exRoot` loads successfully from the
Unloaded state and unloading restores the original mount content. -/
theorem load_unload_roundtrip_from_unloaded_witness :
    ((getV exRoot 0)._name = some "a" ∧
     isLoadedV exRoot 0 = false ∧
     0 ∉ (chFun exRoot 0).flatMap (reachD (chFun exRoot) 2) ∧
     (loadV 3 exRoot 0).2 = none) ∧
    surfaceAt (unloadV 3 (loadV 3 exRoot 0).1 0) "a" = surfaceAt exRoot "a" :=
  ⟨⟨by decide, by decide, by decide, by decide⟩,
   load_unload_roundtrip_from_unloaded 2 exRoot 0 "a"
     (by decide) (by decide) (by decide) (by decide)⟩

/-- C1 counterexample: for a node that is already Loaded when `load()` is
called (a reload), the subsequent `unload()` does not return the mount
location's content to its pre-call value: it restores the pre-first-load
backing content instead, which differs from the markup that was rendered at
call time.  This refutes the claim as stated for already-loaded nodes. -/
theorem load_unload_roundtrip_counterexample :
    (loadV 3 exRootLoaded 0).2 = none ∧
    surfaceAt (unloadV 3 (loadV 3 exRootLoaded 0).1 0) "a" ≠ surfaceAt exRootLoaded "a" := by
  constructor
  · decide
  · decide

end V021

namespace VJS

@[simp]
theorem vjs_getV_setV_self (s : State) (i : Nat) (v : View) : getV (setV s i v) i = v := by
  simp [getV, setV]

theorem vjs_getV_setV_ne (s : State) (i j : Nat) (v : View) (h : j ≠ i) :
    getV (setV s i v) j = getV s j := by
  simp [getV, setV, h]

@[simp]
theorem vjs_getV_modV_self (s : State) (i : Nat) (g : View → View) :
    getV (modV s i g) i = g (getV s i) := by
  simp [modV]

theorem vjs_getV_modV_ne (s : State) (i j : Nat) (g : View → View) (h : j ≠ i) :
    getV (modV s i g) j = getV s j := by
  simp [modV, vjs_getV_setV_ne _ _ _ _ h]

@[simp]
theorem vjs_getV_mk (st : Nat → View) (n : Nat) (su bu : List (String × Elem))
    (ev : List Ev) (i : Nat) : getV (State.mk st n su bu ev) i = st i := rfl

@[simp]
theorem vjs_surface_modV (s : State) (i : Nat) (g : View → View) :
    (modV s i g).surface = s.surface := by
  simp [modV, setV]

@[simp]
theorem vjs_events_modV (s : State) (i : Nat) (g : View → View) :
    (modV s i g).events = s.events := by
  simp [modV, setV]

@[simp]
theorem vjs_next_modV (s : State) (i : Nat) (g : View → View) :
    (modV s i g).next = s.next := by
  simp [modV, setV]

theorem vjs_setV_getV_self (s : State) (i : Nat) : setV s i (getV s i) = s := by
  cases s with
  | mk st n su bu ev =>
    simp only [setV, getV]
    congr 1
    funext j
    by_cases hj : j = i
    · rw [hj]; simp
    · simp [hj]

/-- C3: when `addChildView` finds a conflicting child — the first existing
child occupying the same declared container as the new child — it returns
that child and does not change the state: the new child is not appended.
In particular, re-attaching a child that is already present (the conflict
scan finds the child itself) is a no-op leaving its number of entries in
the children collection unchanged. -/
theorem vjs_addChildView_conflict (loadFn : State → Nat → State × Option Err)
    (s : State) (p newId c₀ : Nat)
    (h : findConflict s p newId = some c₀) :
    addChildViewAux loadFn s p newId = ⟨s, some c₀, none⟩ ∧
    ∀ k, (getV s p)._childViews.count newId = k →
      (getV (addChildViewAux loadFn s p newId).st p)._childViews.count newId = k := by
  have hres : addChildViewAux loadFn s p newId = ⟨s, some c₀, none⟩ := by
    simp only [addChildViewAux, h]
    by_cases hcn : c₀ = newId
    · simp [hcn]
    · simp [hcn]
  exact ⟨hres, fun k hk => by rw [hres]; exact hk⟩

/-- C3 witness: in `exConf`, attaching the detached node 3 (container "x")
returns the existing child 1 as the conflict without attaching, and
re-attaching the already-present child 1 is a no-op that keeps exactly one
entry for it. -/
theorem vjs_addChildView_conflict_witness :
    (findConflict exConf 0 3 = some 1 ∧
      addChildViewAux (load010 2) exConf 0 3 = ⟨exConf, some 1, none⟩) ∧
    (findConflict exConf 0 1 = some 1 ∧
      addChildViewAux (load010 2) exConf 0 1 = ⟨exConf, some 1, none⟩ ∧
      (getV (addChildViewAux (load010 2) exConf 0 1).st 0)._childViews.count 1 = 1) := by
  refine ⟨⟨by decide, ?_⟩, ⟨by decide, ?_, ?_⟩⟩
  · exact (vjs_addChildView_conflict (load010 2) exConf 0 3 1 (by decide)).1
  · exact (vjs_addChildView_conflict (load010 2) exConf 0 1 1 (by decide)).1
  · exact (vjs_addChildView_conflict (load010 2) exConf 0 1 1 (by decide)).2 1 (by decide)

theorem vjs_events_emptyContainer (s : State) (c : String) :
    (emptyContainer s c).events = s.events := by
  rw [emptyContainer]
  split <;> rfl

theorem vjs_getV_emptyContainer (s : State) (c : String) (j : Nat) :
    getV (emptyContainer s c) j = getV s j := by
  rw [emptyContainer]
  split <;> rfl

/-- C6: `unload` is total and benign in every state.  (1) A missing
container name resolves to the empty selection rather than failing.
(2) On a node that is not loaded, no will-unload notification is emitted.
(3) A missing container reference means there is nothing to restore: the
surface and the trace are untouched.  (4) On a node already in the cleared
Unloaded state, `unload` is the identity.  The translated `unload` body
contains no throw site at all. -/
theorem vjs_unload_never_fails (f : Nat) (s : State) (i : Nat) :
    ((getV s i)._container = none → elementForContainer s i = []) ∧
    (isLoadedVJS s i = false → (unload010 f s i).events = s.events) ∧
    ((getV s i)._containerElement = none →
      (unload010 f s i).surface = s.surface ∧ (unload010 f s i).events = s.events) ∧
    ((getV s i)._containerElement = none → (getV s i)._viewElement = none →
      (getV s i)._markupProperties = [] → (getV s i)._viewDidLoadCalled = false →
      unload010 f s i = s) := by
  refine ⟨?_, ?_, ?_, ?_⟩
  · intro h
    rw [elementForContainer, h]
  · intro h
    have hfoldE : ∀ (keys : List String) (st : State),
        (keys.foldl (fun st c => emptyContainer st c) st).events = st.events := by
      intro keys
      induction keys with
      | nil => intro st; rfl
      | cons c rest ih =>
        intro st
        simp only [List.foldl_cons]
        rw [ih (emptyContainer st c)]
        exact vjs_events_emptyContainer st c
    cases f with
    | zero => rfl
    | succ f =>
      simp only [unload010, h, Bool.false_eq_true, if_false, vjs_events_modV]
      cases hks : (getV s i)._containerElement with
      | none => rfl
      | some keys => exact hfoldE keys s
  · intro h
    cases f with
    | zero => exact ⟨rfl, rfl⟩
    | succ f =>
      have hnl : isLoadedVJS s i = false := by
        simp [isLoadedVJS, h]
      simp only [unload010, hnl, Bool.false_eq_true, if_false, h]
      exact ⟨by simp [modV, setV], by simp [modV, setV]⟩
  · intro h1 h2 h3 h4
    cases f with
    | zero => rfl
    | succ f =>
      have hnl : isLoadedVJS s i = false := by
        simp [isLoadedVJS, h1]
      simp only [unload010, hnl, Bool.false_eq_true, if_false, h1]
      have hsame : (fun v => { v with _containerElement := none, _viewElement := none, _markupProperties := [], _viewDidLoadCalled := false }) (getV s i) = getV s i := by
        cases hv : getV s i
        rw [hv] at h1 h2 h3 h4
        simp only [View.mk.injEq] at h1 h2 h3 h4 ⊢
        simp [h1, h2, h3, h4]
      show setV s i ((fun v => { v with _containerElement := none, _viewElement := none, _markupProperties := [], _viewDidLoadCalled := false }) (getV s i)) = s
      rw [hsame, vjs_setV_getV_self]

/-- C6 witness: after a failed load attempt (`exFailedLoad` is the state
left by loading a view with no container), `unload` emits no notification
and leaves surface and trace untouched; a cleared node is untouched
entirely. -/
theorem vjs_unload_never_fails_witness :
    ((load010 3 exNoContainer 0).2 = some Err.containerNotFound ∧
      isLoadedVJS exFailedLoad 0 = false ∧
      (unload010 3 exFailedLoad 0).events = exFailedLoad.events) ∧
    ((getV exNoContainer 0)._container = none ∧
      elementForContainer exNoContainer 0 = []) := by
  refine ⟨⟨by decide, by decide, ?_⟩, ⟨by decide, ?_⟩⟩
  · exact (vjs_unload_never_fails 3 exFailedLoad 0).2.1 (by decide)
  · exact (vjs_unload_never_fails 3 exNoContainer 0).1 (by decide)

@[simp]
theorem vjs_events_setV (s : State) (i : Nat) (v : View) :
    (setV s i v).events = s.events := by
  simp [setV]

theorem vjs_find_congr {α : Type} (l : List α) (p q : α → Bool)
    (h : ∀ a ∈ l, p a = q a) : l.find? p = l.find? q := by
  induction l with
  | nil => rfl
  | cons a t ih =>
    simp only [List.find?_cons]
    rw [h a (List.mem_cons_self a t)]
    cases q a with
    | false => exact ih (fun b hb => h b (List.mem_cons_of_mem a hb))
    | true => rfl

/-- C7: when the scanner-constructed automatic child (allocated at `s.next`)
collides with an existing sibling `c₀` on the same mount slot, the parent's
children and outlets are left unchanged, the freshly constructed node stays
detached, no event fires, and the effective bound view is the fresh (but
discarded and unbound) node when the occupant was explicit, or the existing
occupant when it was itself automatically created — so a reload reuses it
instead of duplicating it. -/
theorem vjs_scanner_conflict (loadFn : State → Nat → State × Option Err)
    (s : State) (i : Nat) (ce : Elem) (cc : String) (c₀ : Nat)
    (hcc : dataGet ce "viewContainer" = some cc)
    (hfind : (getV s i)._childViews.find?
      (fun c => (getV s c)._container = some cc) = some c₀)
    (hi : i ≠ s.next)
    (hfresh : s.next ∉ (getV s i)._childViews) :
    (getV (processAutoAux loadFn s i ce).1 i)._childViews = (getV s i)._childViews ∧
    (getV (processAutoAux loadFn s i ce).1 i)._outlets = (getV s i)._outlets ∧
    (getV (processAutoAux loadFn s i ce).1 s.next)._parentView = none ∧
    (processAutoAux loadFn s i ce).1.events = s.events ∧
    (processAutoAux loadFn s i ce).2 =
      (if (getV s c₀)._wasAutomaticallyCreated = false then s.next else c₀) := by
  have hmem : c₀ ∈ (getV s i)._childViews := List.mem_of_find?_eq_some hfind
  have hc0 : c₀ ≠ s.next := fun h => hfresh (h ▸ hmem)
  simp only [processAutoAux]
  set s₂ := modV (modV (setV { s with next := s.next + 1 } s.next { _container := dataGet ce "viewContainer" }) s.next (fun v => { v with _bundle := dataGet ce "loadBundle" })) s.next (fun v => { v with _wasAutomaticallyCreated := true }) with hs₂
  have houter : ∀ j, j ≠ s.next → getV s₂ j = getV s j := by
    intro j hj
    rw [hs₂, vjs_getV_modV_ne _ _ _ _ hj, vjs_getV_modV_ne _ _ _ _ hj,
      vjs_getV_setV_ne _ _ _ _ hj]
    rfl
  have hself : getV s₂ s.next = { _container := dataGet ce "viewContainer", _bundle := dataGet ce "loadBundle", _wasAutomaticallyCreated := true } := by
    rw [hs₂, vjs_getV_modV_self, vjs_getV_modV_self, vjs_getV_setV_self]
  have hev : s₂.events = s.events := by
    rw [hs₂, vjs_events_modV, vjs_events_modV, vjs_events_setV]
  have hfc : findConflict s₂ i s.next = some c₀ := by
    have hpq : ∀ c ∈ (getV s i)._childViews,
        (decide ((getV s₂ c)._container = some cc)) =
          (decide ((getV s c)._container = some cc)) := by
      intro c hc
      rw [houter c (fun h => hfresh (h ▸ hc))]
    simp only [findConflict, hself, hcc, houter i hi]
    rw [vjs_find_congr ((getV s i)._childViews)
      (fun c => decide ((getV s₂ c)._container = some cc))
      (fun c => decide ((getV s c)._container = some cc)) hpq]
    exact hfind
  simp only [addChildViewAux, hfc, if_neg hc0, houter c₀ hc0]
  by_cases hw : (getV s c₀)._wasAutomaticallyCreated = false
  · simp only [if_pos hw]
    exact ⟨congrArg View._childViews (houter i hi), congrArg View._outlets (houter i hi),
      (congrArg View._parentView hself).trans rfl, hev, trivial⟩
  · simp only [if_neg hw]
    exact ⟨congrArg View._childViews (houter i hi), congrArg View._outlets (houter i hi),
      (congrArg View._parentView hself).trans rfl, hev, trivial⟩

/-- C7 witness: in `exScan`, an annotated element for slot "s" (occupied by
the explicit child 1) yields the discarded fresh node 3, while one for slot
"t" (occupied by the automatic child 2) reuses node 2. -/
theorem vjs_scanner_conflict_witness :
    (processAutoAux (load010 2) exScan 0 (Elem.mk [("viewContainer", "s")] [])).2 = 3 ∧
    (processAutoAux (load010 2) exScan 0 (Elem.mk [("viewContainer", "t")] [])).2 = 2 := by
  constructor
  · have h := vjs_scanner_conflict (load010 2) exScan 0
      (Elem.mk [("viewContainer", "s")] []) "s" 1
      (by decide) (by decide) (by decide) (by decide)
    rw [h.2.2.2.2]
    decide
  · have h := vjs_scanner_conflict (load010 2) exScan 0
      (Elem.mk [("viewContainer", "t")] []) "t" 2
      (by decide) (by decide) (by decide) (by decide)
    rw [h.2.2.2.2]
    decide

theorem vjs_foldl_events_eq {α : Type} (step : State → α → State)
    (hstep : ∀ st a, (step st a).events = st.events) :
    ∀ (l : List α) (st : State), (l.foldl step st).events = st.events := by
  intro l
  induction l with
  | nil => exact fun st => rfl
  | cons a t ih =>
    intro st
    simp only [List.foldl_cons]
    rw [ih (step st a), hstep]

theorem vjs_foldl_events_mem {α : Type} (step : State → α → State)
    (hstep : ∀ st a e, e ∈ st.events → e ∈ (step st a).events) :
    ∀ (l : List α) (st : State) (e : Ev), e ∈ st.events → e ∈ (l.foldl step st).events := by
  intro l
  induction l with
  | nil => exact fun st e h => h
  | cons a t ih =>
    intro st e h
    simp only [List.foldl_cons]
    exact ih (step st a) e (hstep st a e h)

theorem vjs_events_emptyFold : ∀ (keys : List String) (st : State),
    (keys.foldl (fun st c => emptyContainer st c) st).events = st.events := by
  intro keys
  induction keys with
  | nil => exact fun st => rfl
  | cons c rest ih =>
    intro st
    simp only [List.foldl_cons]
    rw [ih (emptyContainer st c), vjs_events_emptyContainer]

theorem vjs_events_setSurfKids (s : State) (c : String) (ks : List Elem) :
    (setSurfKids s c ks).events = s.events := by
  simp only [setSurfKids]
  split
  · rfl
  · rfl

theorem vjs_mem_setV (s : State) (i : Nat) (v : View) (e : Ev)
    (h : e ∈ s.events) : e ∈ (setV s i v).events := by
  rw [vjs_events_setV]
  exact h

theorem vjs_mem_modV (s : State) (i : Nat) (g : View → View) (e : Ev)
    (h : e ∈ s.events) : e ∈ (modV s i g).events := by
  rw [vjs_events_modV]
  exact h

theorem vjs_mem_setSurfKids (s : State) (c : String) (ks : List Elem) (e : Ev)
    (h : e ∈ s.events) : e ∈ (setSurfKids s c ks).events := by
  rw [vjs_events_setSurfKids]
  exact h

theorem vjs_events_fetchProps (s : State) (i : Nat) :
    (fetchProps s i).events = s.events := by
  simp only [fetchProps]
  split
  · split
    · split
      · exact vjs_foldl_events_eq _ (fun st kv => by
          split
          · exact vjs_events_modV _ _ _
          · rfl) _ _
      · rfl
    · rfl
  · rfl

theorem vjs_events_fetchTargetActions (s : State) (i : Nat) :
    (fetchTargetActions s i).events = s.events := by
  simp only [fetchTargetActions]
  split
  · split
    · split
      · exact vjs_foldl_events_eq _ (fun st kv => by
          split
          · exact vjs_events_modV _ _ _
          · rfl) _ _
      · rfl
    · rfl
  · rfl

theorem vjs_mem_fetchProps (s : State) (i : Nat) (e : Ev)
    (h : e ∈ s.events) : e ∈ (fetchProps s i).events := by
  rw [vjs_events_fetchProps]
  exact h

theorem vjs_mem_fetchTA (s : State) (i : Nat) (e : Ev)
    (h : e ∈ s.events) : e ∈ (fetchTargetActions s i).events := by
  rw [vjs_events_fetchTargetActions]
  exact h

theorem vjs_events_unload_mem : ∀ (f : Nat) (s : State) (i : Nat) (e : Ev),
    e ∈ s.events → e ∈ (unload010 f s i).events := by
  intro f
  induction f with
  | zero => exact fun s i e h => h
  | succ f ih =>
    intro s i e h
    by_cases hld : isLoadedVJS s i = true
    · simp only [unload010]
      rw [if_pos hld]
      simp only [vjs_events_modV]
      split
      · exact List.mem_append_left _
          (vjs_foldl_events_mem _ (fun st a e2 h2 => ih st a e2 h2) _ _ _ h)
      · rw [vjs_events_emptyFold]
        exact List.mem_append_left _
          (vjs_foldl_events_mem _ (fun st a e2 h2 => ih st a e2 h2) _ _ _ h)
    · simp only [unload010]
      rw [if_neg hld]
      simp only [vjs_events_modV]
      split
      · exact h
      · rw [vjs_events_emptyFold]
        exact h

theorem vjs_events_addChildViewAux_mem (loadFn : State → Nat → State × Option Err)
    (hl : ∀ st j e, e ∈ st.events → e ∈ (loadFn st j).1.events)
    (s : State) (i newId : Nat) (e : Ev) (h : e ∈ s.events) :
    e ∈ (addChildViewAux loadFn s i newId).st.events := by
  simp only [addChildViewAux]
  split
  · split
    · exact h
    · exact h
  · split
    · exact hl _ _ _ (vjs_mem_modV _ _ _ _ (vjs_mem_modV _ _ _ _ h))
    · exact vjs_mem_modV _ _ _ _ (vjs_mem_modV _ _ _ _ h)

theorem vjs_events_processAutoAux_mem (loadFn : State → Nat → State × Option Err)
    (hl : ∀ st j e, e ∈ st.events → e ∈ (loadFn st j).1.events)
    (s : State) (i : Nat) (ce : Elem) (e : Ev) (h : e ∈ s.events) :
    e ∈ (processAutoAux loadFn s i ce).1.events := by
  have addmem : e ∈ (addChildViewAux loadFn
      (modV (modV (setV { s with next := s.next + 1 } s.next
          { _container := dataGet ce "viewContainer" }) s.next
          (fun v => { v with _bundle := dataGet ce "loadBundle" })) s.next
          (fun v => { v with _wasAutomaticallyCreated := true })) i s.next).st.events :=
    vjs_events_addChildViewAux_mem loadFn hl _ _ _ _
      (vjs_mem_modV _ _ _ _ (vjs_mem_modV _ _ _ _ (vjs_mem_setV _ _ _ _ h)))
  simp only [processAutoAux]
  split
  · split
    · exact addmem
    · exact addmem
  · split
    · exact vjs_mem_modV _ _ _ _ addmem
    · exact addmem

theorem vjs_load010_step_mem (f : Nat)
    (ihmem : ∀ (s : State) (i : Nat) (e : Ev),
      e ∈ s.events → e ∈ (load010 f s i).1.events)
    (s : State) (i : Nat) (e : Ev) (h : e ∈ s.events ++ [Ev.loadCalled i]) :
    e ∈ (load010 (f + 1) s i).1.events := by
  simp only [load010]
  split
  · exact h
  · split
    · exact vjs_events_unload_mem _ _ _ _ h
    · split
      · exact vjs_events_unload_mem _ _ _ _ h
      · split
        · exact vjs_events_unload_mem _ _ _ _ h
        · split
          · exact vjs_events_unload_mem _ _ _ _ h
          · exact vjs_foldl_events_mem _ (fun st a e2 h2 => ihmem st a e2 h2) _ _ _
              (vjs_mem_modV _ _ _ _
                (List.mem_append_left _
                  (vjs_foldl_events_mem _
                    (fun st g e2 h2 => vjs_foldl_events_mem _
                      (fun st2 b e3 h3 => vjs_events_processAutoAux_mem _
                        (fun st3 j e4 h4 => ihmem st3 j e4 h4) st2 i b e3 h3) g.2 st e2 h2)
                    _ _ _
                    (vjs_mem_fetchTA _ _ _
                      (vjs_mem_fetchProps _ _ _
                        (vjs_mem_modV _ _ _ _
                          (vjs_mem_setSurfKids _ _ _ _
                            (vjs_events_unload_mem _ _ _ _ h))))))))

theorem vjs_events_load010_mem : ∀ (f : Nat) (s : State) (i : Nat) (e : Ev),
    e ∈ s.events → e ∈ (load010 f s i).1.events := by
  intro f
  induction f with
  | zero => exact fun s i e h => h
  | succ f ih =>
    exact fun s i e h => vjs_load010_step_mem f ih s i e (List.mem_append_left _ h)

theorem vjs_loadCalled_load010 (f : Nat) (s : State) (i : Nat) :
    Ev.loadCalled i ∈ (load010 (f + 1) s i).1.events :=
  vjs_load010_step_mem f (vjs_events_load010_mem f) s i _ (by simp)

/-- C8: attaching a non-conflicting child to a parent whose
`viewDidLoad` has fired immediately runs the child's `load` (the
result is exactly the load call on the attached state, and the load
invocation is recorded in the trace); attaching to a not-yet-loaded
parent appends the child structurally — parent reference set, child
appended to the children collection — while the child's load state,
and the event trace, are left untouched. -/
theorem vjs_attach_autoload (f : Nat) (s : State) (p c : Nat)
    (hnc : findConflict s p c = none) (hpc : p ≠ c) :
    ((getV s p)._viewDidLoadCalled = true →
      (addChildView010 (f + 1) s p c).st =
        (load010 (f + 1)
          (modV (modV s c (fun v => { v with _parentView := some p })) p
            (fun v => { v with _childViews := v._childViews ++ [c] })) c).1 ∧
      Ev.loadCalled c ∈ (addChildView010 (f + 1) s p c).st.events) ∧
    ((getV s p)._viewDidLoadCalled = false →
      (addChildView010 (f + 1) s p c).st =
        modV (modV s c (fun v => { v with _parentView := some p })) p
          (fun v => { v with _childViews := v._childViews ++ [c] }) ∧
      (addChildView010 (f + 1) s p c).st.events = s.events ∧
      isLoadedVJS (addChildView010 (f + 1) s p c).st c = isLoadedVJS s c ∧
      (getV (addChildView010 (f + 1) s p c).st p)._childViews =
        (getV s p)._childViews ++ [c] ∧
      (getV (addChildView010 (f + 1) s p c).st c)._parentView = some p) := by
  have hcp : c ≠ p := Ne.symm hpc
  have hflag : (getV (modV (modV s c (fun v => { v with _parentView := some p })) p
      (fun v => { v with _childViews := v._childViews ++ [c] })) p)._viewDidLoadCalled =
      (getV s p)._viewDidLoadCalled := by
    simp only [vjs_getV_modV_self, vjs_getV_modV_ne _ _ _ _ hpc]
  simp only [addChildView010, addChildViewAux, hnc]
  constructor
  · intro hft
    rw [if_pos (hflag.trans hft)]
    exact ⟨rfl, vjs_loadCalled_load010 f _ c⟩
  · intro hff
    have hnot : ¬((getV (modV (modV s c (fun v => { v with _parentView := some p })) p
        (fun v => { v with _childViews := v._childViews ++ [c] })) p)._viewDidLoadCalled = true) := by
      rw [hflag, hff]
      exact Bool.false_ne_true
    rw [if_neg hnot]
    refine ⟨rfl, (vjs_events_modV _ _ _).trans (vjs_events_modV _ _ _), ?_, ?_, ?_⟩
    · simp only [isLoadedVJS, vjs_getV_modV_ne _ _ _ _ hcp, vjs_getV_modV_self]
    · simp only [vjs_getV_modV_self, vjs_getV_modV_ne _ _ _ _ hpc]
    · simp only [vjs_getV_modV_ne _ _ _ _ hcp, vjs_getV_modV_self]

/-- C8 witness: attaching the detached child 1 to the loaded parent of
`exAttach` records the child's load invocation; attaching it to the
unloaded parent of `exAttachUnloaded` appends it, keeps it unloaded and
emits nothing. -/
theorem vjs_attach_autoload_witness :
    Ev.loadCalled 1 ∈ (addChildView010 3 exAttach 0 1).st.events ∧
    ((addChildView010 3 exAttachUnloaded 0 1).st.events = exAttachUnloaded.events ∧
      isLoadedVJS (addChildView010 3 exAttachUnloaded 0 1).st 1 =
        isLoadedVJS exAttachUnloaded 1 ∧
      (getV (addChildView010 3 exAttachUnloaded 0 1).st 0)._childViews =
        (getV exAttachUnloaded 0)._childViews ++ [1]) := by
  constructor
  · exact ((vjs_attach_autoload 2 exAttach 0 1 (by decide) (by decide)).1 (by decide)).2
  · have h := (vjs_attach_autoload 2 exAttachUnloaded 0 1 (by decide) (by decide)).2 (by decide)
    exact ⟨h.2.1, h.2.2.1, h.2.2.2.1⟩

theorem vjs_chJ_modV_ne (S : State) (a : Nat) (g : View → View) (x : Nat) (hx : x ≠ a) :
    chJ (modV S a g) x = chJ S x := by
  simp [chJ, vjs_getV_modV_ne _ _ _ _ hx]

theorem vjs_chJ_modV_parent (S : State) (a x : Nat) :
    chJ (modV S a (fun v => { v with _parentView := none })) x = chJ S x := by
  by_cases hx : x = a
  · subst hx
    simp [chJ, vjs_getV_modV_self]
  · exact vjs_chJ_modV_ne _ _ _ _ hx

theorem vjs_outlets_modV_parent (S : State) (a x : Nat) :
    (getV (modV S a (fun v => { v with _parentView := none })) x)._outlets =
      (getV S x)._outlets := by
  by_cases hx : x = a
  · subst hx
    simp [vjs_getV_modV_self]
  · rw [vjs_getV_modV_ne _ _ _ _ hx]

theorem vjs_getV_emptyFold : ∀ (keys : List String) (st : State) (j : Nat),
    getV (keys.foldl (fun st c => emptyContainer st c) st) j = getV st j := by
  intro keys
  induction keys with
  | nil => exact fun st j => rfl
  | cons c rest ih =>
    intro st j
    simp only [List.foldl_cons]
    rw [ih, vjs_getV_emptyContainer]

theorem vjs_unload_keeps_field {α : Type} (F : View → α)
    (hF : ∀ v, F { v with _containerElement := none, _viewElement := none, _markupProperties := [], _viewDidLoadCalled := false } = F v) :
    ∀ (f : Nat) (s : State) (i j : Nat),
      F (getV (unload010 f s i) j) = F (getV s j) := by
  intro f
  induction f with
  | zero => exact fun s i j => rfl
  | succ f ih =>
    intro s i j
    have hfold : ∀ (cs : List Nat) (st : State),
        F (getV (cs.foldl (fun st c => unload010 f st c) st) j) = F (getV st j) := by
      intro cs
      induction cs with
      | nil => exact fun st => rfl
      | cons a rest ihc =>
        intro st
        simp only [List.foldl_cons]
        rw [ihc (unload010 f st a), ih st a j]
    have hmodF : ∀ (X : State), F (getV (modV X i (fun v =>
        { v with _containerElement := none, _viewElement := none, _markupProperties := [], _viewDidLoadCalled := false })) j) = F (getV X j) := by
      intro X
      by_cases hji : j = i
      · subst hji
        simp only [vjs_getV_modV_self]
        exact hF _
      · rw [vjs_getV_modV_ne _ _ _ _ hji]
    simp only [unload010]
    rw [hmodF]
    split
    · split
      · exact hfold _ _
      · rfl
    · rw [vjs_getV_emptyFold]
      split
      · exact hfold _ _
      · rfl

theorem vjs_removeAll_inv (s : State) :
    ∀ (f : Nat) (st : State) (c : Nat),
      (∀ x, chJ st x = chJ s x ∨ chJ st x = []) →
      ∀ x, chJ (removeAllChildViews f st c) x = chJ s x ∨
        chJ (removeAllChildViews f st c) x = [] := by
  intro f
  induction f with
  | zero => exact fun st c h => h
  | succ f ih =>
    intro st c hInv x
    simp only [removeAllChildViews]
    by_cases hxc : x = c
    · subst hxc
      right
      simp [chJ, vjs_getV_modV_self]
    · rw [vjs_chJ_modV_ne _ _ _ _ hxc]
      have hrec : ∀ (cs : List Nat) (st' : State),
          (∀ y, chJ st' y = chJ s y ∨ chJ st' y = []) →
          ∀ y, chJ (cs.foldl (fun st x => modV (removeAllChildViews f st x) x
            (fun v => { v with _parentView := none })) st') y = chJ s y ∨
            chJ (cs.foldl (fun st x => modV (removeAllChildViews f st x) x
            (fun v => { v with _parentView := none })) st') y = [] := by
        intro cs
        induction cs with
        | nil => exact fun st' h => h
        | cons a rest ihc =>
          intro st' h y
          simp only [List.foldl_cons]
          refine ihc _ ?_ y
          intro z
          rw [vjs_chJ_modV_parent]
          exact ih st' a h z
      exact hrec ((getV st c)._childViews) st hInv x

theorem vjs_removeAll_outside (s : State) :
    ∀ (f : Nat) (st : State) (c j : Nat),
      (∀ x, chJ st x = chJ s x ∨ chJ st x = []) →
      j ∉ touchD (chJ s) f c →
      getV (removeAllChildViews f st c) j = getV st j := by
  intro f
  induction f with
  | zero => intro st c j _ _; rfl
  | succ f ih =>
    intro st c j hInv hj
    simp only [touchD, List.mem_cons, List.mem_flatMap, not_or, not_exists] at hj
    obtain ⟨hjc, hjr⟩ := hj
    simp only [removeAllChildViews]
    rw [vjs_getV_modV_ne _ _ _ _ hjc]
    rcases hInv c with hc | hc
    · have hcc : (getV st c)._childViews = chJ s c := hc
      rw [hcc]
      have hfold : ∀ (cs : List Nat), (∀ a ∈ cs, a ∈ chJ s c) → ∀ (st' : State),
          (∀ x, chJ st' x = chJ s x ∨ chJ st' x = []) →
          getV (cs.foldl (fun st x => modV (removeAllChildViews f st x) x
            (fun v => { v with _parentView := none })) st') j = getV st' j := by
        intro cs
        induction cs with
        | nil => intro _ st' _; rfl
        | cons a rest ihc =>
          intro hsub st' hInv'
          simp only [List.foldl_cons]
          have ha : a ∈ chJ s c := hsub a (List.mem_cons_self _ _)
          have hja : j ≠ a := fun h => hjr a ⟨ha, Or.inl h⟩
          have hjt : j ∉ touchD (chJ s) f a := fun h => hjr a ⟨ha, Or.inr h⟩
          have hInv'' : ∀ x, chJ (modV (removeAllChildViews f st' a) a
              (fun v => { v with _parentView := none })) x = chJ s x ∨
              chJ (modV (removeAllChildViews f st' a) a
              (fun v => { v with _parentView := none })) x = [] := by
            intro x
            rw [vjs_chJ_modV_parent]
            exact vjs_removeAll_inv s f st' a hInv' x
          rw [ihc (fun b hb => hsub b (List.mem_cons_of_mem _ hb)) _ hInv'']
          rw [vjs_getV_modV_ne _ _ _ _ hja]
          exact ih st' a j hInv' hjt
      exact hfold (chJ s c) (fun a ha => ha) st hInv
    · have hcc : (getV st c)._childViews = [] := hc
      rw [hcc]
      rfl

theorem vjs_removeAll_outlets_nil :
    ∀ (f : Nat) (st : State) (c j : Nat),
      (getV st j)._outlets = [] →
      (getV (removeAllChildViews f st c) j)._outlets = [] := by
  intro f
  induction f with
  | zero => exact fun st c j h => h
  | succ f ih =>
    intro st c j h
    simp only [removeAllChildViews]
    by_cases hjc : j = c
    · subst hjc
      simp [vjs_getV_modV_self]
    · rw [vjs_getV_modV_ne _ _ _ _ hjc]
      have hfold : ∀ (cs : List Nat) (st' : State),
          (getV st' j)._outlets = [] →
          (getV (cs.foldl (fun st x => modV (removeAllChildViews f st x) x
            (fun v => { v with _parentView := none })) st') j)._outlets = [] := by
        intro cs
        induction cs with
        | nil => exact fun st' h' => h'
        | cons a rest ihc =>
          intro st' h'
          simp only [List.foldl_cons]
          refine ihc _ ?_
          rw [vjs_outlets_modV_parent]
          exact ih st' a j h'
      exact hfold _ st h

theorem vjs_removeAll_keeps_ta :
    ∀ (f : Nat) (st : State) (c j : Nat),
      (getV (removeAllChildViews f st c) j)._targetActions = (getV st j)._targetActions := by
  intro f
  induction f with
  | zero => exact fun st c j => rfl
  | succ f ih =>
    intro st c j
    simp only [removeAllChildViews]
    have hfold : ∀ (cs : List Nat) (st' : State),
        (getV (cs.foldl (fun st x => modV (removeAllChildViews f st x) x
          (fun v => { v with _parentView := none })) st') j)._targetActions =
          (getV st' j)._targetActions := by
      intro cs
      induction cs with
      | nil => exact fun st' => rfl
      | cons a rest ihc =>
        intro st'
        simp only [List.foldl_cons]
        rw [ihc]
        by_cases hja : j = a
        · subst hja
          simp only [vjs_getV_modV_self]
          exact ih st' j j
        · rw [vjs_getV_modV_ne _ _ _ _ hja]
          exact ih st' a j
    by_cases hjc : j = c
    · subst hjc
      simp only [vjs_getV_modV_self]
      exact hfold _ st
    · rw [vjs_getV_modV_ne _ _ _ _ hjc]
      exact hfold _ st

theorem vjs_removeAll_clears (s : State) :
    ∀ (f : Nat) (v : Nat) (st : State),
      (∀ x, chJ st x = chJ s x ∨ chJ st x = []) →
      (touchD (chJ s) f v).Nodup →
      (∀ x ∈ touchD (chJ s) f v, chJ st x = chJ s x) →
      ∀ d ∈ reachD (chJ s) f v,
        (getV (removeAllChildViews f st v) d)._outlets = [] := by
  intro f
  induction f with
  | zero => intro v st _ _ _ d hd; exact absurd hd (List.not_mem_nil d)
  | succ f ih =>
    intro v st hInv hnd hch d hd
    have hvv : chJ st v = chJ s v := hch v (by simp [touchD])
    simp only [removeAllChildViews]
    by_cases hdv : d = v
    · subst hdv
      simp [vjs_getV_modV_self]
    · rw [vjs_getV_modV_ne _ _ _ _ hdv]
      have hd' : ∃ c ∈ chJ s v, d ∈ reachD (chJ s) f c := by
        simp only [reachD, List.mem_cons, List.mem_flatMap] at hd
        rcases hd with h | h
        · exact absurd h hdv
        · exact h
      have hstv : (getV st v)._childViews = chJ s v := hvv
      rw [hstv]
      have hndf : ((chJ s v).flatMap (fun c => c :: touchD (chJ s) f c)).Nodup := by
        simp only [touchD] at hnd
        exact (List.nodup_cons.mp hnd).2
      have hchf : ∀ x ∈ (chJ s v).flatMap (fun c => c :: touchD (chJ s) f c),
          chJ st x = chJ s x := by
        intro x hx
        refine hch x ?_
        simp only [touchD, List.mem_cons]
        exact Or.inr hx
      have hfold : ∀ (cs : List Nat) (st' : State),
          (∀ x, chJ st' x = chJ s x ∨ chJ st' x = []) →
          (cs.flatMap (fun c => c :: touchD (chJ s) f c)).Nodup →
          (∀ x ∈ cs.flatMap (fun c => c :: touchD (chJ s) f c), chJ st' x = chJ s x) →
          ∀ d2, (∃ c ∈ cs, d2 ∈ reachD (chJ s) f c) →
            (getV (cs.foldl (fun st x => modV (removeAllChildViews f st x) x
              (fun v => { v with _parentView := none })) st') d2)._outlets = [] := by
        intro cs
        induction cs with
        | nil =>
          intro st' _ _ _ d2 hd2
          obtain ⟨c, hc, _⟩ := hd2
          exact absurd hc (List.not_mem_nil c)
        | cons a rest ihc =>
          intro st' hInv' hnd' hch' d2 hd2
          simp only [List.foldl_cons]
          rw [List.flatMap_cons] at hnd' hch'
          obtain ⟨hnda, hndr, hdisj⟩ := List.nodup_append.mp hnd'
          obtain ⟨c, hc, hdc⟩ := hd2
          rcases List.mem_cons.mp hc with hca | hcr
          · have hdca : d2 ∈ reachD (chJ s) f a := hca ▸ hdc
            have hcleared : (getV (removeAllChildViews f st' a) d2)._outlets = [] :=
              ih a st' hInv' ((List.nodup_cons.mp hnda).2)
                (fun x hx => hch' x (List.mem_append_left _ (List.mem_cons_of_mem _ hx)))
                d2 hdca
            have hcleared2 : (getV (modV (removeAllChildViews f st' a) a
                (fun v => { v with _parentView := none })) d2)._outlets = [] := by
              rw [vjs_outlets_modV_parent]
              exact hcleared
            have hpres : ∀ (cs2 : List Nat) (st2 : State),
                (getV st2 d2)._outlets = [] →
                (getV (cs2.foldl (fun st x => modV (removeAllChildViews f st x) x
                  (fun v => { v with _parentView := none })) st2) d2)._outlets = [] := by
              intro cs2
              induction cs2 with
              | nil => exact fun st2 h2 => h2
              | cons b r2 ihp =>
                intro st2 h2
                simp only [List.foldl_cons]
                refine ihp _ ?_
                rw [vjs_outlets_modV_parent]
                exact vjs_removeAll_outlets_nil f st2 b d2 h2
            exact hpres rest _ hcleared2
          · have hst'' : ∀ x, chJ (modV (removeAllChildViews f st' a) a
                (fun v => { v with _parentView := none })) x = chJ s x ∨
                chJ (modV (removeAllChildViews f st' a) a
                (fun v => { v with _parentView := none })) x = [] := by
              intro x
              rw [vjs_chJ_modV_parent]
              exact vjs_removeAll_inv s f st' a hInv' x
            refine ihc _ hst'' hndr ?_ d2 ⟨c, hcr, hdc⟩
            intro x hx
            rw [vjs_chJ_modV_parent]
            have hxa : x ∉ touchD (chJ s) f a := by
              intro hmem
              exact (hdisj (List.mem_cons_of_mem _ hmem)) hx
            have hg : getV (removeAllChildViews f st' a) x = getV st' x :=
              vjs_removeAll_outside s f st' a x hInv' hxa
            have hg' : chJ (removeAllChildViews f st' a) x = chJ st' x := by
              simp only [chJ, hg]
            rw [hg']
            exact hch' x (List.mem_append_right _ hx)
      exact hfold (chJ s v) st hInv hndf hchf d hd'

/-- C4 counterexample: in `exTA` the parent (0) holds a target-action entry
whose target is its child (1).  After `removeChildView` the child is fully
detached — it is gone from the children collection and its parent reference
is cleared — yet the parent's target-action table still holds the entry
targeting the removed child: the reference survives detachment (an explicit
`TODO` in the source). -/
theorem vjs_detach_targetaction_counterexample :
    1 ∉ (getV (removeChildView 5 exTA 0 1) 0)._childViews ∧
    (getV (removeChildView 5 exTA 0 1) 1)._parentView = none ∧
    (getV (removeChildView 5 exTA 0 1) 0)._targetActions =
      [("tap", TargetAction.mk (some 1) (some "onTap"))] := by
  decide

/-- C4 (amended): after `removeChildView` on an actual child, (1) no outlet
entry of the parent refers to the removed child any more, and (2) every
node reachable from the removed child within the recursion budget — the
child itself included — has an empty outlet table (in a duplicate-free
hierarchy region); but (3) the target-action table of every node is left
exactly as it was, so target-action references to the detached subtree
survive (contrary to the unqualified claim; removing them is an explicit
`TODO` in the source). -/
theorem vjs_detach_reference_cleanup (f : Nat) (s : State) (i exId idx : Nat)
    (hidx : (getV s i)._childViews.findIdx? (fun c => c = exId) = some idx)
    (hnd : (touchD (chJ s) f exId).Nodup) :
    (∀ kv ∈ (getV (removeChildView f s i exId) i)._outlets, kv.2 ≠ some exId) ∧
    (∀ d ∈ reachD (chJ s) f exId,
      (getV (removeChildView f s i exId) d)._outlets = []) ∧
    (∀ j, (getV (removeChildView f s i exId) j)._targetActions =
      (getV s j)._targetActions) := by
  simp only [removeChildView, hidx]
  refine ⟨?_, ?_, ?_⟩
  · intro kv hkv
    simp only [vjs_getV_modV_self] at hkv
    obtain ⟨kv', _, heq⟩ := List.mem_map.mp hkv
    by_cases hk : kv'.2 = some exId
    · rw [if_pos hk] at heq
      rw [← heq]
      simp
    · rw [if_neg hk] at heq
      rw [← heq]
      exact hk
  · intro d hd
    have hInv : ∀ x, chJ (unload010 f s exId) x = chJ s x ∨
        chJ (unload010 f s exId) x = [] :=
      fun x => Or.inl (vjs_unload_keeps_field (fun v => v._childViews) (fun v => rfl) f s exId x)
    have hb : (getV (removeAllChildViews f (unload010 f s exId) exId) d)._outlets = [] :=
      vjs_removeAll_clears s f exId (unload010 f s exId) hInv hnd
        (fun x _ => vjs_unload_keeps_field (fun v => v._childViews) (fun v => rfl) f s exId x)
        d hd
    by_cases hdi : d = i
    · subst hdi
      simp only [vjs_getV_modV_self, vjs_outlets_modV_parent, hb, List.map_nil]
    · rw [vjs_getV_modV_ne _ _ _ _ hdi, vjs_getV_modV_ne _ _ _ _ hdi,
        vjs_outlets_modV_parent]
      exact hb
  · intro j
    have h1 : (getV (unload010 f s exId) j)._targetActions = (getV s j)._targetActions :=
      vjs_unload_keeps_field (fun v => v._targetActions) (fun v => rfl) f s exId j
    have h2 : (getV (removeAllChildViews f (unload010 f s exId) exId) j)._targetActions =
        (getV (unload010 f s exId) j)._targetActions :=
      vjs_removeAll_keeps_ta f (unload010 f s exId) exId j
    have hmod3 : ∀ (X : State), (getV (modV X exId (fun v =>
        { v with _parentView := none })) j)._targetActions = (getV X j)._targetActions := by
      intro X
      by_cases hj : j = exId
      · subst hj
        simp [vjs_getV_modV_self]
      · rw [vjs_getV_modV_ne _ _ _ _ hj]
    have hmod4 : ∀ (X : State), (getV (modV X i (fun v =>
        { v with _childViews := v._childViews.eraseIdx idx })) j)._targetActions =
        (getV X j)._targetActions := by
      intro X
      by_cases hj : j = i
      · subst hj
        simp [vjs_getV_modV_self]
      · rw [vjs_getV_modV_ne _ _ _ _ hj]
    have hmod5 : ∀ (X : State), (getV (modV X i (fun v =>
        { v with _outlets := v._outlets.map (fun kv =>
          if kv.2 = some exId then (kv.1, none) else kv) })) j)._targetActions =
        (getV X j)._targetActions := by
      intro X
      by_cases hj : j = i
      · subst hj
        simp [vjs_getV_modV_self]
      · rw [vjs_getV_modV_ne _ _ _ _ hj]
    rw [hmod5, hmod4, hmod3, h2, h1]

/-- C4 witness: on `exTA`, the amended theorem yields a parent outlet table
free of references to the removed child 1, an emptied outlet table on the
child itself, and an untouched parent target-action table. -/
theorem vjs_detach_reference_cleanup_witness :
    (∀ kv ∈ (getV (removeChildView 5 exTA 0 1) 0)._outlets, kv.2 ≠ some 1) ∧
    (getV (removeChildView 5 exTA 0 1) 1)._outlets = [] ∧
    (getV (removeChildView 5 exTA 0 1) 0)._targetActions = (getV exTA 0)._targetActions := by
  have h := vjs_detach_reference_cleanup 5 exTA 0 1 0 (by decide) (by decide)
  exact ⟨h.1, h.2.1 1 (by decide), h.2.2 0⟩

end VJS
